import Mathlib

set_option maxHeartbeats 1000000

/-!
Verification development for the `mist` rust-core cryptographic engine
(`src/rust-core/src/crypto/{aes,keys,x3dh,ratchet}.rs`).

Modelling conventions:

* Byte strings (`Vec<u8>`, `[u8; N]`, `&[u8]`) are modelled as `List Nat`
  (`Bytes`).  The `u8` value range never influences control flow of the
  embedded functions, so it is not constrained.
* `u32` counters are modelled as `Nat` together with explicit `% 2^32`
  wherever the Rust code can overflow.  Overflowing `+=` on `u32` is given
  the release-profile (wrap-around) semantics of the wasm build.
* Fallible Rust functions returning `Result<_, JsError>` are modelled with
  `Except String`; the strings are the `JsError::new` messages (format
  arguments elided).  Rust panics (`copy_from_slice` length mismatches)
  are also modelled as errors, marked in comments.
* The external cryptographic primitives (x25519-dalek, ed25519-dalek,
  hkdf, hmac, aes-gcm) are not part of this repository; they are modelled
  as an abstract structure `Prims` of functions together with the
  mathematical properties of the real primitives that the repository's
  documented behaviour relies on (DH commutativity, AEAD round-trip and
  authentication, Ed25519 to X25519 birational-map agreement, output
  lengths).  All repository functions are parameterised by a `Prims`.
  A concrete executable instance `trivP` witnesses that the properties
  are satisfiable, so every theorem can be evaluated on concrete inputs.
* `BASE64.encode` is used by the code only as an injective canonical
  encoding for `HashMap` keys; it is modelled by the identity encoding
  `b64` (injective, maps the empty string to the empty string, which is
  all the code observes).
-/

/-- Byte strings. -/
abbrev Bytes := List Nat

/-- 2^32, the `u32` modulus. -/
def U32MOD : Nat := 4294967296

/-- `BASE64.encode`, modelled as an injective canonical encoding of byte
strings (the identity); only injectivity and preservation of emptiness are
observable through the skipped-key map. -/
def b64 (l : Bytes) : Bytes := l

/-- Abstract model of the external cryptographic primitives used by the
repository, bundled with the mathematical facts about the real primitives
(RFC 7748 x25519, RFC 8032 ed25519, HMAC-SHA256, HKDF-SHA256, AES-256-GCM)
that the code's correctness properties rest on. -/
structure Prims where
  /-- `x25519_dalek` Diffie-Hellman: 32-byte secret scalar and 32-byte public
  point to the 32-byte shared secret (clamping happens inside). -/
  dhFun : Bytes → Bytes → Bytes
  /-- `X25519PublicKey::from(&secret)`: public key of a secret scalar. -/
  dhPub : Bytes → Bytes
  /-- `SigningKey::from_bytes(seed).verifying_key()`: Ed25519 public key of a seed. -/
  edPub : Bytes → Bytes
  /-- SHA-512-then-clamp conversion of an Ed25519 seed to an X25519 scalar
  (`X3DH::ed25519_to_x3dh` body, lines 267-288 of x3dh.rs). -/
  edToXPriv : Bytes → Bytes
  /-- Edwards-point decompression followed by Montgomery conversion
  (x3dh.rs lines 291-308); `none` models decompression failure. -/
  edToXPub : Bytes → Option Bytes
  /-- `VerifyingKey::from_bytes`; `none` models point rejection. -/
  edParse : Bytes → Option Bytes
  /-- `VerifyingKey::verify(message, signature).is_ok()`. -/
  edVerifyKey : Bytes → Bytes → Bytes → Bool
  /-- HMAC-SHA256 of a message under a key. -/
  hmac : Bytes → Bytes → Bytes
  /-- HKDF-SHA256 expand: optional salt, ikm, info, output length. -/
  hkdfExpand : Option Bytes → Bytes → Bytes → Nat → Bytes
  /-- AES-256-GCM encryption: key, nonce, plaintext, aad to ciphertext-with-tag. -/
  aeadEnc : Bytes → Bytes → Bytes → Bytes → Bytes
  /-- AES-256-GCM decryption; `none` models tag failure. -/
  aeadDec : Bytes → Bytes → Bytes → Bytes → Option Bytes
  /-- x25519 DH commutativity for 32-byte scalars (spec section 8, property 3). -/
  dh_comm : ∀ a b, a.length = 32 → b.length = 32 →
    dhFun a (dhPub b) = dhFun b (dhPub a)
  /-- x25519 public keys are 32 bytes. -/
  dhPub_len : ∀ s, (dhPub s).length = 32
  /-- Ed25519 public keys are 32 bytes. -/
  edPub_len : ∀ s, (edPub s).length = 32
  /-- The converted X25519 scalar is 32 bytes. -/
  edToXPriv_len : ∀ s, (edToXPriv s).length = 32
  /-- Agreement of the Ed25519 to X25519 birational map (spec section 8,
  property 4): converting the public of a seed gives the public of the
  converted private. -/
  edx_agree : ∀ s, s.length = 32 →
    edToXPub (edPub s) = some (dhPub (edToXPriv s))
  /-- HMAC-SHA256 output is 32 bytes. -/
  hmac_len : ∀ k m, (hmac k m).length = 32
  /-- HKDF expand returns exactly the requested number of bytes. -/
  hkdf_len : ∀ salt ikm info n, (hkdfExpand salt ikm info n).length = n
  /-- AEAD round-trip (spec section 8, property 1). -/
  aead_roundtrip : ∀ k n m a, aeadDec k n (aeadEnc k n m a) a = some m
  /-- AEAD authenticates the associated data: decryption under any other
  aad fails (spec section 8, property 1). -/
  aead_auth : ∀ k n m a a2, a2 ≠ a → aeadDec k n (aeadEnc k n m a) a2 = none

/-! ## aes.rs -/

/-- `EncryptedMessage` (aes.rs lines 19-24). -/
structure EncryptedMessage where
  ciphertext : Bytes
  nonce : Bytes
deriving DecidableEq, Repr

/-- `EncryptedMessage::to_bytes` (aes.rs lines 42-46): `nonce || ciphertext`. -/
def EncryptedMessage.toBytes (e : EncryptedMessage) : Bytes :=
  e.nonce ++ e.ciphertext

/-- `EncryptedMessage::from_bytes` (aes.rs lines 50-58). -/
def EncryptedMessage.fromBytes (b : Bytes) : Except String EncryptedMessage :=
  if b.length < 12 then .error "Invalid encrypted message: too short"
  else .ok ⟨b.drop 12, b.take 12⟩

/-- `AesGcmCipher::new` then `encrypt_with_aad` (aes.rs lines 83-94 and
115-140); the freshly drawn random nonce is passed explicitly. -/
def aesEncryptWithAad (P : Prims) (key plaintext aad nonce : Bytes) :
    Except String EncryptedMessage :=
  if key.length = 32 then .ok ⟨P.aeadEnc key nonce plaintext aad, nonce⟩
  else .error "Key must be 32 bytes"

/-- `AesGcmCipher::new` then `decrypt_with_aad` (aes.rs lines 83-94 and
157-178). -/
def aesDecryptWithAad (P : Prims) (key : Bytes) (e : EncryptedMessage)
    (aad : Bytes) : Except String Bytes :=
  if key.length = 32 then
    if e.nonce.length = 12 then
      match P.aeadDec key e.nonce e.ciphertext aad with
      | some pt => .ok pt
      | none => .error "Decryption failed"
    else .error "Invalid nonce size"
  else .error "Key must be 32 bytes"

/-- `AesGcmCipher::new` then `encrypt` (aes.rs lines 97-111): same as
encryption with empty associated data. -/
def aesEncrypt (P : Prims) (key plaintext nonce : Bytes) :
    Except String EncryptedMessage :=
  if key.length = 32 then .ok ⟨P.aeadEnc key nonce plaintext [], nonce⟩
  else .error "Key must be 32 bytes"

/-- `AesGcmCipher::new` then `decrypt` (aes.rs lines 143-153). -/
def aesDecrypt (P : Prims) (key : Bytes) (e : EncryptedMessage) :
    Except String Bytes :=
  if key.length = 32 then
    if e.nonce.length = 12 then
      match P.aeadDec key e.nonce e.ciphertext [] with
      | some pt => .ok pt
      | none => .error "Decryption failed"
    else .error "Invalid nonce size"
  else .error "Key must be 32 bytes"

/-! ## A concrete instance of the primitives

`trivP` instantiates `Prims` with simple executable functions satisfying
all the bundled properties, so theorems can be evaluated at concrete
inputs. -/

/-- Sum of a byte list. -/
def listSum (l : Bytes) : Nat := l.foldr (· + ·) 0

/-- Pad or truncate a byte list to exactly 32 entries. -/
def to32 (l : Bytes) : Bytes := (l ++ List.replicate 32 0).take 32

theorem to32_length (l : Bytes) : (to32 l).length = 32 := by
  simp only [to32, List.length_take, List.length_append, List.length_replicate]
  omega

theorem to32_eq_self {l : Bytes} (h : l.length = 32) : to32 l = l := by
  simp only [to32]
  exact List.take_left' h

/-- Toy AEAD encryption for the concrete instance: a length header followed
by the plaintext and a tag that repeats the key, nonce and aad. -/
def tEnc (k n m a : Bytes) : Bytes := m.length :: (m ++ (k ++ n ++ a))

/-- Toy AEAD decryption for the concrete instance. -/
def tDec (k n c a : Bytes) : Option Bytes :=
  match c with
  | [] => none
  | len :: rest =>
    let m := rest.take len
    if m.length = len ∧ rest = m ++ (k ++ n ++ a) then some m else none

theorem tDec_tEnc (k n m a : Bytes) : tDec k n (tEnc k n m a) a = some m := by
  simp [tDec, tEnc, List.take_left' rfl]

theorem tDec_tEnc_ne (k n m a a2 : Bytes) (h : a2 ≠ a) :
    tDec k n (tEnc k n m a) a2 = none := by
  simp only [tDec, tEnc, List.take_left' rfl]
  rw [if_neg]
  rintro ⟨-, h2⟩
  apply h
  have h3 := List.append_cancel_left h2
  exact (List.append_cancel_left h3).symm

/-- Concrete executable instance of the abstract primitives. -/
def trivP : Prims where
  dhFun a b := to32 [listSum a + listSum b]
  dhPub s := to32 s
  edPub s := to32 s
  edToXPriv s := to32 s
  edToXPub p := some (to32 p)
  edParse p := some (to32 p)
  edVerifyKey _ _ _ := true
  hmac k m := to32 (listSum m % 256 :: k)
  hkdfExpand salt ikm info n :=
    List.replicate n ((listSum ikm + listSum info + listSum (salt.getD [])) % 256)
  aeadEnc := tEnc
  aeadDec := tDec
  dh_comm := by
    intro a b ha hb
    simp only [to32_eq_self ha, to32_eq_self hb, Nat.add_comm]
  dhPub_len := fun s => to32_length s
  edPub_len := fun s => to32_length s
  edToXPriv_len := fun s => to32_length s
  edx_agree := by intro s _; rfl
  hmac_len := fun k m => to32_length _
  hkdf_len := fun salt ikm info n => List.length_replicate n _
  aead_roundtrip := tDec_tEnc
  aead_auth := tDec_tEnc_ne

/-! ## Claim C3: AEAD round-trip with associated data -/

/-- C3: for every 32-byte key, plaintext and aad (and fresh 12-byte nonce),
`decrypt_with_aad(key, encrypt_with_aad(key, plaintext, aad), aad)` returns
the original plaintext, and decryption with any different aad returns the
authentication error rather than a plaintext. -/
theorem c3_aead_aad_roundtrip (P : Prims) (key pt aad nonce : Bytes)
    (hk : key.length = 32) (hn : nonce.length = 12) :
    ∃ e, aesEncryptWithAad P key pt aad nonce = .ok e ∧
      aesDecryptWithAad P key e aad = .ok pt ∧
      ∀ aad2, aad2 ≠ aad →
        aesDecryptWithAad P key e aad2 = .error "Decryption failed" := by
  refine ⟨⟨P.aeadEnc key nonce pt aad, nonce⟩, ?_, ?_, ?_⟩
  · simp [aesEncryptWithAad, hk]
  · simp [aesDecryptWithAad, hk, hn, P.aead_roundtrip]
  · intro aad2 h2
    simp [aesDecryptWithAad, hk, hn, P.aead_auth key nonce pt aad aad2 h2]

/-- Closed witness for C3 at concrete inputs. -/
theorem c3_aead_aad_roundtrip_witness :
    (List.replicate 32 7 : Bytes).length = 32 ∧
    (List.replicate 12 9 : Bytes).length = 12 ∧
    (∃ e, aesEncryptWithAad trivP (List.replicate 32 7) [1, 2, 3] [4, 5]
        (List.replicate 12 9) = .ok e ∧
      aesDecryptWithAad trivP (List.replicate 32 7) e [4, 5] = .ok [1, 2, 3] ∧
      ∀ aad2, aad2 ≠ [4, 5] →
        aesDecryptWithAad trivP (List.replicate 32 7) e aad2 =
          .error "Decryption failed") :=
  ⟨by decide, by decide,
    c3_aead_aad_roundtrip trivP (List.replicate 32 7) [1, 2, 3] [4, 5]
      (List.replicate 12 9) (by decide) (by decide)⟩

/-! ## keys.rs -/

/-- `IdentityKeyPair::verify_signature` (keys.rs lines 66-84).  Returns a
`Bool` (never an error): `false` on a wrong-length public key or signature,
on an Ed25519 point that fails to decode, and on a well-formed signature
that does not verify. -/
def verifySignature (P : Prims) (publicKey message signature : Bytes) : Bool :=
  if publicKey.length ≠ 32 ∨ signature.length ≠ 64 then false
  else
    match P.edParse publicKey with
    | none => false
    | some vk => P.edVerifyKey vk message signature

/-- C8: `verify_signature` returns a boolean and never an error (its type is
`Bool`), returning `false` whenever the public key is not 32 bytes, the
signature is not 64 bytes, or the public key does not decode as an Ed25519
point, as well as whenever a decoded key rejects the signature. -/
theorem c8_verify_signature_malformed (P : Prims) (publicKey message signature : Bytes)
    (h : publicKey.length ≠ 32 ∨ signature.length ≠ 64 ∨
      P.edParse publicKey = none ∨
      (∃ vk, P.edParse publicKey = some vk ∧
        P.edVerifyKey vk message signature = false)) :
    verifySignature P publicKey message signature = false := by
  rcases h with h | h | h | ⟨vk, hvk, hfail⟩
  · simp [verifySignature, h]
  · simp [verifySignature, h]
  · simp only [verifySignature, h]
    split <;> simp
  · simp only [verifySignature, hvk]
    split <;> simp [hfail]

/-- Closed witness for C8: a 31-byte public key is rejected with `false`. -/
theorem c8_verify_signature_malformed_witness :
    ((List.replicate 31 5 : Bytes).length ≠ 32 ∨
      (List.replicate 64 1 : Bytes).length ≠ 64 ∨
      trivP.edParse (List.replicate 31 5) = none ∨
      (∃ vk, trivP.edParse (List.replicate 31 5) = some vk ∧
        trivP.edVerifyKey vk [1, 2] (List.replicate 64 1) = false)) ∧
    verifySignature trivP (List.replicate 31 5) [1, 2] (List.replicate 64 1) = false :=
  ⟨Or.inl (by decide),
    c8_verify_signature_malformed trivP (List.replicate 31 5) [1, 2]
      (List.replicate 64 1) (Or.inl (by decide))⟩

/-! ## ratchet.rs: data model -/

/-- `MAX_SKIP` (ratchet.rs line 16). -/
def MAX_SKIP : Nat := 1000

/-- `INFO_RATCHET = b"SafeTalk_Ratchet"` (ratchet.rs line 17). -/
def INFO_RATCHET : Bytes :=
  [83, 97, 102, 101, 84, 97, 108, 107, 95, 82, 97, 116, 99, 104, 101, 116]

/-- `INFO_MESSAGE_KEYS = b"SafeTalk_MessageKeys"` (ratchet.rs line 18). -/
def INFO_MESSAGE_KEYS : Bytes :=
  [83, 97, 102, 101, 84, 97, 108, 107, 95, 77, 101, 115, 115, 97, 103, 101,
   75, 101, 121, 115]

/-- `MessageKeys` (ratchet.rs lines 21-26). -/
structure MessageKeys where
  cipher_key : Bytes
  mac_key : Bytes
  iv : Bytes
deriving DecidableEq, Repr

/-- Key of the skipped-key map: `(ratchet_public_key_base64, message_number)`
(ratchet.rs line 31). -/
abbrev SkKey := Bytes × Nat

/-- The `SkippedKeys` hash map (ratchet.rs lines 29-33), modelled as an
association list with unique keys; `HashMap` iteration order is irrelevant
to every observable operation (`remove`, `insert`, round-trips). -/
abbrev SkMap := List (SkKey × MessageKeys)

/-- `HashMap::get`-style lookup (first matching key). -/
def skFind (k : SkKey) : SkMap → Option MessageKeys
  | [] => none
  | (k2, v) :: rest => if k2 = k then some v else skFind k rest

/-- `HashMap::remove`: drop the (unique) entry with the given key. -/
def skErase (k : SkKey) : SkMap → SkMap
  | [] => []
  | (k2, v) :: rest => if k2 = k then rest else (k2, v) :: skErase k rest

/-- `HashMap::insert`: overwrite the entry with the given key. -/
def skInsert (k : SkKey) (v : MessageKeys) (m : SkMap) : SkMap :=
  (k, v) :: skErase k m

/-- `DhKeyPair` (ratchet.rs lines 59-63). -/
structure DhKeyPair where
  public : Bytes
  priv : Bytes
deriving DecidableEq, Repr

/-- `DhKeyPair::new` (ratchet.rs lines 66-72): a fresh X25519 keypair; the
random secret scalar is passed explicitly. -/
def DhKeyPair.fresh (P : Prims) (scalar : Bytes) : DhKeyPair :=
  ⟨P.dhPub scalar, scalar⟩

/-- `DhKeyPair::diffie_hellman` (ratchet.rs lines 74-85).  The two
`copy_from_slice` calls panic unless both byte strings are exactly 32
bytes; the panic is modelled as an error. -/
def DhKeyPair.diffieHellman (P : Prims) (kp : DhKeyPair) (theirPublic : Bytes) :
    Except String Bytes :=
  if kp.priv.length = 32 ∧ theirPublic.length = 32 then
    .ok (P.dhFun kp.priv theirPublic)
  else .error "panic: copy_from_slice length mismatch"

/-- `RatchetMessage` (ratchet.rs lines 91-102), fields in declaration
order. -/
structure RatchetMessage where
  dh_public : Bytes
  prev_chain_count : Nat
  message_number : Nat
  ciphertext : Bytes
  nonce : Bytes
deriving DecidableEq, Repr

/-- `RatchetSession` (ratchet.rs lines 38-57), fields in declaration
order. -/
structure RatchetSession where
  dh_self : DhKeyPair
  dh_remote : Option Bytes
  root_key : Bytes
  chain_key_send : Option Bytes
  chain_key_recv : Option Bytes
  send_count : Nat
  recv_count : Nat
  prev_send_count : Nat
  skipped_keys : SkMap
deriving DecidableEq, Repr

/-! ## ratchet.rs: key derivation -/

/-- `RatchetSession::kdf_rk` (ratchet.rs lines 360-372): HKDF-SHA256 with
the root key as salt, expanded to 64 bytes and split in two.  The
`expand` error path is dead (64 is far below the HKDF limit), so the
function is total. -/
def kdfRk (P : Prims) (rootKey dhOutput : Bytes) : Bytes × Bytes :=
  let output := P.hkdfExpand (some rootKey) dhOutput INFO_RATCHET 64
  (output.take 32, output.drop 32)

/-- `RatchetSession::kdf_ck` (ratchet.rs lines 375-404): HMAC-SHA256 with
bytes `0x01`/`0x02`, plus an HKDF-derived 16-byte iv.  `new_from_slice`
never fails for HMAC and the `expand` error path is dead, so the function
is total. -/
def kdfCk (P : Prims) (chainKey : Bytes) : MessageKeys :=
  { cipher_key := P.hmac chainKey [1]
    mac_key := P.hmac chainKey [2]
    iv := P.hkdfExpand none (P.hmac chainKey [1]) INFO_MESSAGE_KEYS 16 }

/-- `RatchetSession::chain_key_step` (ratchet.rs lines 407-418):
HMAC-SHA256 with byte `0x03`. -/
def chainKeyStep (P : Prims) (chainKey : Bytes) : Bytes :=
  P.hmac chainKey [3]

/-! ## ratchet.rs: session operations -/

/-- `RatchetSession::init_as_alice` (ratchet.rs lines 164-192); the random
scalar of the fresh DH keypair is passed explicitly. -/
def initAsAlice (P : Prims) (sharedSecret remotePublicKey scalar : Bytes) :
    Except String RatchetSession :=
  if sharedSecret.length = 32 then
    let dhSelf := DhKeyPair.fresh P scalar
    match dhSelf.diffieHellman P remotePublicKey with
    | .error e => .error e
    | .ok dhOutput =>
      let rc := kdfRk P sharedSecret dhOutput
      .ok { dh_self := dhSelf
            dh_remote := some remotePublicKey
            root_key := rc.1
            chain_key_send := some rc.2
            chain_key_recv := none
            send_count := 0
            recv_count := 0
            prev_send_count := 0
            skipped_keys := [] }
  else .error "Shared secret must be 32 bytes"

/-- `RatchetSession::init_as_bob` (ratchet.rs lines 199-226). -/
def initAsBob (sharedSecret signedPrekeyPrivate signedPrekeyPublic : Bytes) :
    Except String RatchetSession :=
  if sharedSecret.length = 32 then
    .ok { dh_self := ⟨signedPrekeyPublic, signedPrekeyPrivate⟩
          dh_remote := none
          root_key := sharedSecret
          chain_key_send := none
          chain_key_recv := none
          send_count := 0
          recv_count := 0
          prev_send_count := 0
          skipped_keys := [] }
  else .error "Shared secret must be 32 bytes"

/-- `RatchetSession::encrypt` (ratchet.rs lines 229-255); the random nonce
is passed explicitly.  The final `self.send_count += 1` is a `u32`
increment, modelled with release-profile wrap-around.  The state is
returned alongside the result because `&mut self` mutations survive an
error return (the chain key is stepped before the cipher is built). -/
def RatchetSession.encrypt (P : Prims) (s : RatchetSession) (nonce plaintext : Bytes) :
    RatchetSession × Except String RatchetMessage :=
  match s.chain_key_send with
  | none => (s, .error "No sending chain key")
  | some chainKey =>
    let messageKeys := kdfCk P chainKey
    let s1 := { s with chain_key_send := some (chainKeyStep P chainKey) }
    if messageKeys.cipher_key.length = 32 then
      let encrypted := { ciphertext := P.aeadEnc messageKeys.cipher_key nonce plaintext []
                         nonce := nonce : EncryptedMessage }
      let message : RatchetMessage :=
        { dh_public := s1.dh_self.public
          prev_chain_count := s1.prev_send_count
          message_number := s1.send_count
          ciphertext := encrypted.ciphertext
          nonce := encrypted.nonce }
      ({ s1 with send_count := (s1.send_count + 1) % U32MOD }, .ok message)
    else (s1, .error "Key must be 32 bytes")

/-- The loop body of `RatchetSession::skip_message_keys` (ratchet.rs lines
336-343), recursing on the gap `until - recv_count`.  Inside the loop
`recv_count < until < 2^32` always holds, so the `u32` increment never
wraps. -/
def skipLoop (P : Prims) (pk : Bytes) (chainKey : Bytes) (cnt gap : Nat)
    (sk : SkMap) : Bytes × Nat × SkMap :=
  match gap with
  | 0 => (chainKey, cnt, sk)
  | g + 1 =>
    skipLoop P pk (chainKeyStep P chainKey) (cnt + 1) g
      (skInsert (pk, cnt) (kdfCk P chainKey) sk)

/-- `RatchetSession::skip_message_keys` (ratchet.rs lines 325-348).  The
guard `self.recv_count + MAX_SKIP < until` is a `u32` addition, modelled
with release-profile wrap-around. -/
def skipMessageKeys (P : Prims) (s : RatchetSession) (untilN : Nat) :
    Except String RatchetSession :=
  match s.chain_key_recv with
  | none => .ok s
  | some chainKey =>
    if (s.recv_count + MAX_SKIP) % U32MOD < untilN then
      .error "Too many skipped messages"
    else
      let pk := (s.dh_remote.map b64).getD []
      let r := skipLoop P pk chainKey s.recv_count (untilN - s.recv_count) s.skipped_keys
      .ok { s with chain_key_recv := some r.1, recv_count := r.2.1,
                   skipped_keys := r.2.2 }

/-- `RatchetSession::dh_ratchet` (ratchet.rs lines 297-322); the random
scalar of the fresh DH keypair is passed explicitly.  The
`diffie_hellman` panics are modelled as errors (the partially mutated
state of an aborted wasm call is unobservable). -/
def dhRatchet (P : Prims) (s : RatchetSession) (theirPublic scalar : Bytes) :
    Except String RatchetSession :=
  let s1 := { s with prev_send_count := s.send_count
                     send_count := 0
                     recv_count := 0
                     dh_remote := some theirPublic }
  match s1.dh_self.diffieHellman P theirPublic with
  | .error e => .error e
  | .ok dhOutput =>
    let rc := kdfRk P s1.root_key dhOutput
    let s2 := { s1 with root_key := rc.1, chain_key_recv := some rc.2 }
    let newSelf := DhKeyPair.fresh P scalar
    match newSelf.diffieHellman P theirPublic with
    | .error e => .error e
    | .ok dhOutput2 =>
      let rc2 := kdfRk P s2.root_key dhOutput2
      .ok { s2 with dh_self := newSelf, root_key := rc2.1,
                    chain_key_send := some rc2.2 }

/-- `RatchetSession::decrypt_with_keys` (ratchet.rs lines 351-357):
rebuild an `EncryptedMessage` from `nonce || ciphertext` and decrypt with
the message keys (no associated data). -/
def decryptWithKeys (P : Prims) (keys : MessageKeys) (message : RatchetMessage) :
    Except String Bytes :=
  if keys.cipher_key.length = 32 then
    if (message.nonce ++ message.ciphertext).length < 12 then
      .error "Invalid encrypted message: too short"
    else
      if ((message.nonce ++ message.ciphertext).take 12).length = 12 then
        match P.aeadDec keys.cipher_key ((message.nonce ++ message.ciphertext).take 12)
            ((message.nonce ++ message.ciphertext).drop 12) [] with
        | some pt => .ok pt
        | none => .error "Decryption failed"
      else .error "Invalid nonce size"
  else .error "Key must be 32 bytes"

/-- `RatchetSession::decrypt` (ratchet.rs lines 258-294).  The state is
returned alongside the result because `&mut self` mutations survive an
error return (removed skipped key; completed ratchet; stepped chain). -/
def RatchetSession.decrypt (P : Prims) (s : RatchetSession) (message : RatchetMessage)
    (scalar : Bytes) : RatchetSession × Except String Bytes :=
  let key : SkKey := (b64 message.dh_public, message.message_number)
  match skFind key s.skipped_keys with
  | some stored =>
    ({ s with skipped_keys := skErase key s.skipped_keys },
      decryptWithKeys P stored message)
  | none =>
    let needRatchet : Bool :=
      match s.dh_remote with
      | none => true
      | some remote => remote ≠ message.dh_public
    let ratcheted : Except String RatchetSession :=
      if needRatchet then
        match skipMessageKeys P s message.prev_chain_count with
        | .error e => .error e
        | .ok s1 => dhRatchet P s1 message.dh_public scalar
      else .ok s
    match ratcheted with
    | .error e => (s, .error e)
    | .ok s1 =>
      match skipMessageKeys P s1 message.message_number with
      | .error e => (s1, .error e)
      | .ok s2 =>
        match s2.chain_key_recv with
        | none => (s2, .error "No receiving chain key")
        | some chainKey =>
          let messageKeys := kdfCk P chainKey
          let s3 := { s2 with chain_key_recv := some (chainKeyStep P chainKey)
                              recv_count := (s2.recv_count + 1) % U32MOD }
          (s3, decryptWithKeys P messageKeys message)

/-! ## Basic lemmas about the skipped-key map and encrypt -/

theorem skFind_skErase_ne (k k2 : SkKey) (m : SkMap) (h : k2 ≠ k) :
    skFind k2 (skErase k m) = skFind k2 m := by
  induction m with
  | nil => rfl
  | cons e rest ih =>
    obtain ⟨k3, v⟩ := e
    by_cases h3 : k3 = k
    · have hne : k3 ≠ k2 := fun h4 => h (h4 ▸ h3)
      simp only [skErase, if_pos h3, skFind, if_neg hne]
    · simp only [skErase, if_neg h3, skFind]
      by_cases h4 : k3 = k2
      · simp [h4]
      · simp [h4, ih]

theorem skFind_skInsert_self (k : SkKey) (v : MessageKeys) (m : SkMap) :
    skFind k (skInsert k v m) = some v := by
  simp [skInsert, skFind]

theorem skFind_skInsert_ne (k k2 : SkKey) (v : MessageKeys) (m : SkMap)
    (h : k2 ≠ k) : skFind k2 (skInsert k v m) = skFind k2 m := by
  simp only [skInsert, skFind]
  rw [if_neg (fun h4 => h h4.symm)]
  exact skFind_skErase_ne k k2 m h

/-- Characterisation of a successful `encrypt`: shared between several
claims.  With a sending chain key present, the call always succeeds (the
cipher-key length check passes by the HMAC output length), steps the
sending chain once, bumps `send_count` by one modulo 2^32, and emits the
message fields from the pre-call state. -/
theorem encrypt_eq (P : Prims) (s : RatchetSession) (nonce plaintext chainKey : Bytes)
    (h : s.chain_key_send = some chainKey) :
    RatchetSession.encrypt P s nonce plaintext =
      ({ s with chain_key_send := some (chainKeyStep P chainKey)
                send_count := (s.send_count + 1) % U32MOD },
        .ok { dh_public := s.dh_self.public
              prev_chain_count := s.prev_send_count
              message_number := s.send_count
              ciphertext := P.aeadEnc (kdfCk P chainKey).cipher_key nonce plaintext []
              nonce := nonce }) := by
  simp [RatchetSession.encrypt, h, kdfCk, P.hmac_len]

/-! ## Claim C10: frame property of encrypt -/

/-- C10: with a sending chain key present, `encrypt` succeeds and modifies
only `chain_key_send` (one `chain_key_step`) and `send_count` (the `u32`
increment by one); every other field is unchanged and the emitted message
carries the current DH public key, the pre-call `send_count` as message
number and `prev_send_count` as previous-chain count. -/
theorem c10_encrypt_frame (P : Prims) (s : RatchetSession)
    (nonce plaintext chainKey : Bytes) (h : s.chain_key_send = some chainKey) :
    RatchetSession.encrypt P s nonce plaintext =
      ({ s with chain_key_send := some (chainKeyStep P chainKey)
                send_count := (s.send_count + 1) % U32MOD },
        .ok { dh_public := s.dh_self.public
              prev_chain_count := s.prev_send_count
              message_number := s.send_count
              ciphertext := P.aeadEnc (kdfCk P chainKey).cipher_key nonce plaintext []
              nonce := nonce }) :=
  encrypt_eq P s nonce plaintext chainKey h

/-- Concrete session used by several witnesses. -/
def sampleSession : RatchetSession :=
  { dh_self := ⟨to32 [1], to32 [2]⟩
    dh_remote := some (to32 [3])
    root_key := to32 [4]
    chain_key_send := some (to32 [5])
    chain_key_recv := some (to32 [6])
    send_count := 0
    recv_count := 0
    prev_send_count := 0
    skipped_keys := [] }

/-- Closed witness for C10 at a concrete session. -/
theorem c10_encrypt_frame_witness :
    sampleSession.chain_key_send = some (to32 [5]) ∧
    RatchetSession.encrypt trivP sampleSession [9] [7, 8] =
      ({ sampleSession with
            chain_key_send := some (chainKeyStep trivP (to32 [5]))
            send_count := (sampleSession.send_count + 1) % U32MOD },
        .ok { dh_public := sampleSession.dh_self.public
              prev_chain_count := sampleSession.prev_send_count
              message_number := sampleSession.send_count
              ciphertext := trivP.aeadEnc (kdfCk trivP (to32 [5])).cipher_key [9] [7, 8] []
              nonce := [9] }) :=
  ⟨rfl, c10_encrypt_frame trivP sampleSession [9] [7, 8] (to32 [5]) rfl⟩

/-! ## Claim C6: missing send-count limit (code bug) -/

/-- C6 evaluation: the spec requires `encrypt` to refuse once `send_count`
has reached 2^32 - 1, but the code has no such guard: with a sending
chain key present and `send_count = 2^32 - 1`, `encrypt` still returns a
message (numbered 2^32 - 1) and wraps `send_count` around to 0. -/
theorem c6_encrypt_cap_missing (P : Prims) (s : RatchetSession)
    (nonce plaintext chainKey : Bytes) (h : s.chain_key_send = some chainKey)
    (hc : s.send_count = 4294967295) :
    ∃ m, (RatchetSession.encrypt P s nonce plaintext).2 = .ok m ∧
      m.message_number = 4294967295 ∧
      (RatchetSession.encrypt P s nonce plaintext).1.send_count = 0 := by
  rw [encrypt_eq P s nonce plaintext chainKey h]
  exact ⟨_, rfl, hc, by simp [hc, U32MOD]⟩

/-- Closed witness for C6 at a concrete session with the counter at the
`u32` maximum. -/
theorem c6_encrypt_cap_missing_witness :
    ({ sampleSession with send_count := 4294967295 }).chain_key_send = some (to32 [5]) ∧
    ({ sampleSession with send_count := 4294967295 }).send_count = 4294967295 ∧
    ∃ m, (RatchetSession.encrypt trivP { sampleSession with send_count := 4294967295 }
            [9] [7, 8]).2 = .ok m ∧
      m.message_number = 4294967295 ∧
      (RatchetSession.encrypt trivP { sampleSession with send_count := 4294967295 }
          [9] [7, 8]).1.send_count = 0 :=
  ⟨rfl, rfl,
    c6_encrypt_cap_missing trivP { sampleSession with send_count := 4294967295 }
      [9] [7, 8] (to32 [5]) rfl rfl⟩

/-! ## Claim C4: frame property of the skipped-key path of decrypt -/

/-- C4: when the incoming message's key (canonically encoded DH public and
message number) is present in `skipped_keys`, `decrypt` removes exactly
that entry, decrypts with the stored message keys, and leaves every other
session field unchanged whether or not the AEAD decryption succeeds. -/
theorem c4_decrypt_skipped_frame (P : Prims) (s : RatchetSession)
    (message : RatchetMessage) (scalar : Bytes) (stored : MessageKeys)
    (h : skFind (b64 message.dh_public, message.message_number) s.skipped_keys =
      some stored) :
    RatchetSession.decrypt P s message scalar =
      ({ s with skipped_keys :=
            skErase (b64 message.dh_public, message.message_number) s.skipped_keys },
        decryptWithKeys P stored message) ∧
    ∀ k2, k2 ≠ (b64 message.dh_public, message.message_number) →
      skFind k2 (RatchetSession.decrypt P s message scalar).1.skipped_keys =
        skFind k2 s.skipped_keys := by
  constructor
  · simp [RatchetSession.decrypt, h]
  · intro k2 h2
    simp only [RatchetSession.decrypt, h]
    exact skFind_skErase_ne _ k2 s.skipped_keys h2

/-- Concrete message keys for witnesses. -/
def sampleKeys : MessageKeys := ⟨to32 [11], to32 [12], List.replicate 16 13⟩

/-- Concrete incoming message for witnesses. -/
def sampleMessage : RatchetMessage :=
  { dh_public := to32 [3]
    prev_chain_count := 0
    message_number := 0
    ciphertext := tEnc (to32 [11]) (List.replicate 12 9) [7, 8] []
    nonce := List.replicate 12 9 }

/-- Closed witness for C4 at a concrete session holding one skipped key. -/
theorem c4_decrypt_skipped_frame_witness :
    skFind (b64 sampleMessage.dh_public, sampleMessage.message_number)
        ({ sampleSession with
            skipped_keys := [((b64 (to32 [3]), 0), sampleKeys)] }).skipped_keys =
      some sampleKeys ∧
    (RatchetSession.decrypt trivP
        { sampleSession with skipped_keys := [((b64 (to32 [3]), 0), sampleKeys)] }
        sampleMessage [] =
      ({ { sampleSession with skipped_keys := [((b64 (to32 [3]), 0), sampleKeys)] } with
          skipped_keys := skErase (b64 sampleMessage.dh_public, sampleMessage.message_number)
            [((b64 (to32 [3]), 0), sampleKeys)] },
        decryptWithKeys trivP sampleKeys sampleMessage) ∧
      ∀ k2, k2 ≠ (b64 sampleMessage.dh_public, sampleMessage.message_number) →
        skFind k2 (RatchetSession.decrypt trivP
            { sampleSession with skipped_keys := [((b64 (to32 [3]), 0), sampleKeys)] }
            sampleMessage []).1.skipped_keys =
          skFind k2 [((b64 (to32 [3]), 0), sampleKeys)]) :=
  ⟨by decide,
    c4_decrypt_skipped_frame trivP
      { sampleSession with skipped_keys := [((b64 (to32 [3]), 0), sampleKeys)] }
      sampleMessage [] sampleKeys (by decide)⟩

/-! ## Lemmas about skip_message_keys -/

theorem skipLoop_chain (P : Prims) (pk ck : Bytes) (cnt gap : Nat) (sk : SkMap) :
    (skipLoop P pk ck cnt gap sk).1 = (chainKeyStep P)^[gap] ck := by
  induction gap generalizing ck cnt sk with
  | zero => rfl
  | succ g ih =>
    rw [skipLoop, ih, Function.iterate_succ_apply]

theorem skipLoop_count (P : Prims) (pk ck : Bytes) (cnt gap : Nat) (sk : SkMap) :
    (skipLoop P pk ck cnt gap sk).2.1 = cnt + gap := by
  induction gap generalizing ck cnt sk with
  | zero => rfl
  | succ g ih =>
    rw [skipLoop, ih]
    omega

/-- Keys below the starting counter, or under a different public key, are
untouched by the skip loop. -/
theorem skipLoop_frame (P : Prims) (pk ck : Bytes) (cnt gap : Nat) (sk : SkMap)
    (k : SkKey) (h : k.2 < cnt ∨ k.1 ≠ pk) :
    skFind k (skipLoop P pk ck cnt gap sk).2.2 = skFind k sk := by
  induction gap generalizing ck cnt sk with
  | zero => rfl
  | succ g ih =>
    have hk : k ≠ (pk, cnt) := by
      rintro rfl
      rcases h with h | h
      · simp at h
      · exact h rfl
    have h2 : k.2 < cnt + 1 ∨ k.1 ≠ pk := by
      rcases h with h | h
      · exact Or.inl (by omega)
      · exact Or.inr h
    rw [skipLoop, ih (chainKeyStep P ck) (cnt + 1) (skInsert (pk, cnt) (kdfCk P ck) sk) h2,
      skFind_skInsert_ne (pk, cnt) k (kdfCk P ck) sk hk]

/-- Every index in the skipped range ends up in the map with the message
keys derived from the corresponding chain-key step. -/
theorem skipLoop_found (P : Prims) (pk ck : Bytes) (cnt gap : Nat) (sk : SkMap)
    (i : Nat) (h1 : cnt ≤ i) (h2 : i < cnt + gap) :
    skFind (pk, i) (skipLoop P pk ck cnt gap sk).2.2 =
      some (kdfCk P ((chainKeyStep P)^[i - cnt] ck)) := by
  induction gap generalizing ck cnt sk with
  | zero => omega
  | succ g ih =>
    rw [skipLoop]
    rcases Nat.eq_or_lt_of_le h1 with h3 | h3
    · subst h3
      rw [skipLoop_frame P pk _ _ _ _ _ (Or.inl (by omega))]
      simp [skFind_skInsert_self, Nat.sub_self]
    · rw [ih _ _ _ h3 (by omega)]
      have h4 : i - cnt = (i - (cnt + 1)) + 1 := by omega
      rw [h4, Function.iterate_succ_apply]

/-- `decrypt_with_keys` never reports the skip-limit error. -/
theorem decryptWithKeys_ne_tooMany (P : Prims) (keys : MessageKeys)
    (message : RatchetMessage) :
    decryptWithKeys P keys message ≠ .error "Too many skipped messages" := by
  unfold decryptWithKeys
  split
  · split
    · simp
    · split
      · split <;> simp
      · simp
  · simp

/-- `decrypt` on the current receiving chain (no skipped-key hit, no DH
ratchet needed): reduced to the skip call followed by one chain step. -/
theorem decrypt_no_ratchet (P : Prims) (s : RatchetSession) (m : RatchetMessage)
    (scalar : Bytes)
    (hfind : skFind (b64 m.dh_public, m.message_number) s.skipped_keys = none)
    (hrem : s.dh_remote = some m.dh_public) :
    RatchetSession.decrypt P s m scalar =
      match skipMessageKeys P s m.message_number with
      | .error e => (s, .error e)
      | .ok s2 =>
        match s2.chain_key_recv with
        | none => (s2, .error "No receiving chain key")
        | some chainKey =>
          ({ s2 with chain_key_recv := some (chainKeyStep P chainKey)
                     recv_count := (s2.recv_count + 1) % U32MOD },
            decryptWithKeys P (kdfCk P chainKey) m) := by
  simp [RatchetSession.decrypt, hfind, hrem]

/-- `skip_message_keys` with a receiving chain key present, in terms of the
loop characterisation. -/
theorem skipMessageKeys_some (P : Prims) (s : RatchetSession) (untilN : Nat)
    (ck : Bytes) (hck : s.chain_key_recv = some ck) :
    skipMessageKeys P s untilN =
      if (s.recv_count + MAX_SKIP) % U32MOD < untilN then
        .error "Too many skipped messages"
      else
        .ok { s with
          chain_key_recv := some ((chainKeyStep P)^[untilN - s.recv_count] ck)
          recv_count := s.recv_count + (untilN - s.recv_count)
          skipped_keys := (skipLoop P ((s.dh_remote.map b64).getD []) ck
            s.recv_count (untilN - s.recv_count) s.skipped_keys).2.2 } := by
  simp only [skipMessageKeys, hck]
  split
  · rfl
  · rw [skipLoop_chain, skipLoop_count]

/-! ## Claim C5: skip-limit guard (corrected: u32 wrap-around) -/

/-- C5 amended: on the current receiving chain (message's DH key equals
`dh_remote`, key not in `skipped_keys`), `decrypt` returns the
`TooManySkipped` error exactly when `(recv_count + MAX_SKIP) mod 2^32 <
message_number` — the code computes the guard in wrapping `u32`
arithmetic, which agrees with the claim's `message_number - recv_count >
MAX_SKIP` whenever `recv_count + MAX_SKIP` does not overflow — and when
the guard does not fire, a message key for every number from `recv_count`
up to `message_number - 1` is present in `skipped_keys` afterwards. -/
theorem c5_skip_guard (P : Prims) (s : RatchetSession) (m : RatchetMessage)
    (scalar ck : Bytes)
    (hck : s.chain_key_recv = some ck)
    (hrem : s.dh_remote = some m.dh_public)
    (hfind : skFind (b64 m.dh_public, m.message_number) s.skipped_keys = none) :
    ((RatchetSession.decrypt P s m scalar).2 = .error "Too many skipped messages" ↔
      (s.recv_count + MAX_SKIP) % U32MOD < m.message_number) ∧
    (s.recv_count + MAX_SKIP < U32MOD →
      ((s.recv_count + MAX_SKIP) % U32MOD < m.message_number ↔
        m.message_number - s.recv_count > MAX_SKIP)) ∧
    (¬ (s.recv_count + MAX_SKIP) % U32MOD < m.message_number →
      ∀ i, s.recv_count ≤ i → i < m.message_number →
        skFind (b64 m.dh_public, i)
            (RatchetSession.decrypt P s m scalar).1.skipped_keys =
          some (kdfCk P ((chainKeyStep P)^[i - s.recv_count] ck))) := by
  have harith : s.recv_count + MAX_SKIP < U32MOD →
      ((s.recv_count + MAX_SKIP) % U32MOD < m.message_number ↔
        m.message_number - s.recv_count > MAX_SKIP) := by
    intro hlt
    rw [Nat.mod_eq_of_lt hlt]
    omega
  rw [decrypt_no_ratchet P s m scalar hfind hrem,
    skipMessageKeys_some P s m.message_number ck hck]
  by_cases hg : (s.recv_count + MAX_SKIP) % U32MOD < m.message_number
  · rw [if_pos hg]
    exact ⟨by simp [hg], harith, fun h => absurd hg h⟩
  · rw [if_neg hg]
    refine ⟨?_, harith, ?_⟩
    · exact ⟨fun h => absurd h (decryptWithKeys_ne_tooMany P _ m),
        fun h => absurd h hg⟩
    · intro _ i h1 h2
      rw [hrem]
      exact skipLoop_found P (b64 m.dh_public) ck s.recv_count
        (m.message_number - s.recv_count) s.skipped_keys i h1 (by omega)

/-- C5 counterexample: a state on the current receiving chain with
`recv_count = 2^32 - 1` and an incoming message with the same number (gap
0, well within `MAX_SKIP`) is nevertheless rejected with the
`TooManySkipped` error, because `recv_count + MAX_SKIP` wraps around in
`u32`; the claim's `message_number - recv_count > MAX_SKIP` condition is
false here, refuting the claimed equivalence. -/
theorem c5_skip_guard_counterexample :
    (let s := { sampleSession with recv_count := 4294967295 }
     let m := { sampleMessage with message_number := 4294967295 }
     s.chain_key_recv = some (to32 [6]) ∧
     s.dh_remote = some m.dh_public ∧
     skFind (b64 m.dh_public, m.message_number) s.skipped_keys = none ∧
     ¬ m.message_number - s.recv_count > MAX_SKIP ∧
     (RatchetSession.decrypt trivP s m []).2 =
       .error "Too many skipped messages") := by
  refine ⟨rfl, rfl, rfl, by decide, ?_⟩
  rfl

/-- Closed witness for the amended C5 at a concrete in-range state. -/
theorem c5_skip_guard_witness :
    sampleSession.chain_key_recv = some (to32 [6]) ∧
    sampleSession.dh_remote = some sampleMessage.dh_public ∧
    skFind (b64 sampleMessage.dh_public, sampleMessage.message_number)
      sampleSession.skipped_keys = none ∧
    (((RatchetSession.decrypt trivP sampleSession sampleMessage []).2 =
        .error "Too many skipped messages" ↔
      (sampleSession.recv_count + MAX_SKIP) % U32MOD < sampleMessage.message_number) ∧
    (sampleSession.recv_count + MAX_SKIP < U32MOD →
      ((sampleSession.recv_count + MAX_SKIP) % U32MOD < sampleMessage.message_number ↔
        sampleMessage.message_number - sampleSession.recv_count > MAX_SKIP)) ∧
    (¬ (sampleSession.recv_count + MAX_SKIP) % U32MOD < sampleMessage.message_number →
      ∀ i, sampleSession.recv_count ≤ i → i < sampleMessage.message_number →
        skFind (b64 sampleMessage.dh_public, i)
            (RatchetSession.decrypt trivP sampleSession sampleMessage []).1.skipped_keys =
          some (kdfCk trivP ((chainKeyStep trivP)^[i - sampleSession.recv_count]
            (to32 [6]))))) :=
  ⟨rfl, rfl, rfl,
    c5_skip_guard trivP sampleSession sampleMessage [] (to32 [6]) rfl rfl rfl⟩

/-! ## bincode serialization (ratchet.rs to_bytes/from_bytes, serialize/deserialize)

`bincode::serialize`/`bincode::deserialize` use the crate's legacy
configuration: fixed-width integers, little-endian, `Vec`/`String`/map
lengths as `u64`, `Option` as a one-byte tag, `[u8; N]` as `N` raw bytes,
structs and tuples as the concatenation of their fields in declaration
order, and trailing bytes tolerated on deserialization. -/

/-- 2^64, the `u64`/`usize` modulus. -/
def P64 : Nat := 18446744073709551616

/-- Little-endian byte encoding of `n` in `k` bytes. -/
def leBytes : Nat → Nat → Bytes
  | 0, _ => []
  | k + 1, n => n % 256 :: leBytes k (n / 256)

/-- Value of a little-endian byte list. -/
def fromLe : Bytes → Nat
  | [] => 0
  | b :: t => b + 256 * fromLe t

theorem leBytes_length (k n : Nat) : (leBytes k n).length = k := by
  induction k generalizing n with
  | zero => rfl
  | succ k ih => simp [leBytes, ih]

theorem fromLe_leBytes (k n : Nat) (h : n < 256 ^ k) : fromLe (leBytes k n) = n := by
  induction k generalizing n with
  | zero =>
    simp only [Nat.pow_zero, Nat.lt_one_iff] at h
    simp [h, leBytes, fromLe]
  | succ k ih =>
    have h2 : n / 256 < 256 ^ k := by
      rw [Nat.div_lt_iff_lt_mul (by norm_num)]
      calc n < 256 ^ (k + 1) := h
        _ = 256 ^ k * 256 := by ring
    simp [leBytes, fromLe, ih _ h2, Nat.mod_add_div]

/-- Big-endian byte encoding (used only to state the spec's claimed
canonical wire layout). -/
def beBytes (k n : Nat) : Bytes := (leBytes k n).reverse

/-- bincode `u32`: four little-endian bytes. -/
def encU32 (n : Nat) : Bytes := leBytes 4 n

/-- bincode `u64`: eight little-endian bytes. -/
def encU64 (n : Nat) : Bytes := leBytes 8 n

/-- bincode `Vec<u8>`/`String`: `u64` length then the raw bytes. -/
def encVec (v : Bytes) : Bytes := encU64 v.length ++ v

/-- bincode `Option<Vec<u8>>`: tag byte then the encoded vector. -/
def encOptVec : Option Bytes → Bytes
  | none => [0]
  | some v => 1 :: encVec v

/-- bincode `Option<[u8; 32]>`: tag byte then the raw 32 bytes. -/
def encOptArr32 : Option Bytes → Bytes
  | none => [0]
  | some v => 1 :: v

/-- bincode `MessageKeys`: the three fixed arrays, raw. -/
def encMessageKeys (mk : MessageKeys) : Bytes :=
  mk.cipher_key ++ mk.mac_key ++ mk.iv

/-- bincode entry of the skipped-key map: `(String, u32)` key then value. -/
def encSkEntry (e : SkKey × MessageKeys) : Bytes :=
  encVec e.1.1 ++ encU32 e.1.2 ++ encMessageKeys e.2

/-- bincode `HashMap`: `u64` length then the entries. -/
def encSkMap (m : SkMap) : Bytes :=
  encU64 m.length ++ (m.map encSkEntry).flatten

/-- `RatchetMessage::to_bytes` (ratchet.rs lines 141-144): bincode of the
struct fields in declaration order. -/
def messageToBytes (m : RatchetMessage) : Bytes :=
  encVec m.dh_public ++ encU32 m.prev_chain_count ++ encU32 m.message_number ++
    encVec m.ciphertext ++ encVec m.nonce

/-- `RatchetSession::serialize` (ratchet.rs lines 421-424): bincode of the
session fields in declaration order (`SkippedKeys` is a single-field
struct, so it contributes exactly its map). -/
def serializeSession (s : RatchetSession) : Bytes :=
  encVec s.dh_self.public ++ encVec s.dh_self.priv ++ encOptVec s.dh_remote ++
    s.root_key ++ encOptArr32 s.chain_key_send ++ encOptArr32 s.chain_key_recv ++
    encU32 s.send_count ++ encU32 s.recv_count ++ encU32 s.prev_send_count ++
    encSkMap s.skipped_keys

/-- Consume exactly `n` bytes. -/
def pTake (n : Nat) (b : Bytes) : Option (Bytes × Bytes) :=
  if n ≤ b.length then some (b.take n, b.drop n) else none

/-- Parse a bincode `u32`. -/
def pU32 (b : Bytes) : Option (Nat × Bytes) :=
  match pTake 4 b with
  | some (x, r) => some (fromLe x, r)
  | none => none

/-- Parse a bincode `u64`. -/
def pU64 (b : Bytes) : Option (Nat × Bytes) :=
  match pTake 8 b with
  | some (x, r) => some (fromLe x, r)
  | none => none

/-- Parse a bincode `Vec<u8>`/`String`. -/
def pVec (b : Bytes) : Option (Bytes × Bytes) :=
  match pU64 b with
  | some (n, r) => pTake n r
  | none => none

/-- Parse a bincode `Option` via a parser for the payload. -/
def pOptWith (q : Bytes → Option (Bytes × Bytes)) (b : Bytes) :
    Option (Option Bytes × Bytes) :=
  match b with
  | 0 :: r => some (none, r)
  | 1 :: r =>
    match q r with
    | some (x, r2) => some (some x, r2)
    | none => none
  | _ => none

/-- Parse a bincode `MessageKeys`. -/
def pMessageKeys (b : Bytes) : Option (MessageKeys × Bytes) :=
  match pTake 32 b with
  | some (ck, r) =>
    match pTake 32 r with
    | some (mk2, r2) =>
      match pTake 16 r2 with
      | some (iv, r3) => some (⟨ck, mk2, iv⟩, r3)
      | none => none
    | none => none
  | none => none

/-- Parse one skipped-key entry. -/
def pSkEntry (b : Bytes) : Option ((SkKey × MessageKeys) × Bytes) :=
  match pVec b with
  | some (pk, r) =>
    match pU32 r with
    | some (n, r2) =>
      match pMessageKeys r2 with
      | some (mk2, r3) => some (((pk, n), mk2), r3)
      | none => none
    | none => none
  | none => none

/-- Parse `k` successive entries. -/
def pEntries : Nat → Bytes → Option (SkMap × Bytes)
  | 0, b => some ([], b)
  | k + 1, b =>
    match pSkEntry b with
    | some (e, r) =>
      match pEntries k r with
      | some (es, r2) => some (e :: es, r2)
      | none => none
    | none => none

/-- Parse the skipped-key map. -/
def pSkMap (b : Bytes) : Option (SkMap × Bytes) :=
  match pU64 b with
  | some (n, r) => pEntries n r
  | none => none

/-- `RatchetMessage::from_bytes` (ratchet.rs lines 146-149): bincode
deserialization (trailing bytes tolerated). -/
def messageFromBytes (b : Bytes) : Except String RatchetMessage :=
  match pVec b with
  | some (dhp, r1) =>
    match pU32 r1 with
    | some (pcc, r2) =>
      match pU32 r2 with
      | some (num, r3) =>
        match pVec r3 with
        | some (ct, r4) =>
          match pVec r4 with
          | some (nn, _) => .ok ⟨dhp, pcc, num, ct, nn⟩
          | none => .error "deserialization error"
        | none => .error "deserialization error"
      | none => .error "deserialization error"
    | none => .error "deserialization error"
  | none => .error "deserialization error"

/-- `RatchetSession::deserialize` (ratchet.rs lines 427-430): bincode
deserialization (trailing bytes tolerated). -/
def deserializeSession (b : Bytes) : Except String RatchetSession :=
  match pVec b with
  | some (pub1, r1) =>
    match pVec r1 with
    | some (priv1, r2) =>
      match pOptWith pVec r2 with
      | some (rem, r3) =>
        match pTake 32 r3 with
        | some (rk, r4) =>
          match pOptWith (pTake 32) r4 with
          | some (cks, r5) =>
            match pOptWith (pTake 32) r5 with
            | some (ckr, r6) =>
              match pU32 r6 with
              | some (sc, r7) =>
                match pU32 r7 with
                | some (rc, r8) =>
                  match pU32 r8 with
                  | some (pc, r9) =>
                    match pSkMap r9 with
                    | some (sk, _) =>
                      .ok { dh_self := ⟨pub1, priv1⟩, dh_remote := rem,
                            root_key := rk, chain_key_send := cks,
                            chain_key_recv := ckr, send_count := sc,
                            recv_count := rc, prev_send_count := pc,
                            skipped_keys := sk }
                    | none => .error "deserialization error"
                  | none => .error "deserialization error"
                | none => .error "deserialization error"
              | none => .error "deserialization error"
            | none => .error "deserialization error"
          | none => .error "deserialization error"
        | none => .error "deserialization error"
      | none => .error "deserialization error"
    | none => .error "deserialization error"
  | none => .error "deserialization error"

/-! ## bincode round-trip lemmas -/

theorem pTake_append (l r : Bytes) (n : Nat) (h : l.length = n) :
    pTake n (l ++ r) = some (l, r) := by
  subst h
  simp [pTake, List.take_left, List.drop_left, List.length_append, Nat.le_add_right]

theorem pU32_enc (n : Nat) (r : Bytes) (h : n < U32MOD) :
    pU32 (encU32 n ++ r) = some (n, r) := by
  simp only [encU32, pU32, pTake_append (leBytes 4 n) r 4 (leBytes_length 4 n),
    fromLe_leBytes 4 n (by norm_num [U32MOD] at h ⊢; exact h)]

theorem pU64_enc (n : Nat) (r : Bytes) (h : n < P64) :
    pU64 (encU64 n ++ r) = some (n, r) := by
  simp only [encU64, pU64, pTake_append (leBytes 8 n) r 8 (leBytes_length 8 n),
    fromLe_leBytes 8 n (by norm_num [P64] at h ⊢; exact h)]

theorem pVec_enc (v r : Bytes) (h : v.length < P64) :
    pVec (encVec v ++ r) = some (v, r) := by
  simp only [encVec, List.append_assoc, pVec, pU64_enc v.length (v ++ r) h,
    pTake_append v r v.length rfl]

theorem pOptVec_enc (o : Option Bytes) (r : Bytes) (h : ∀ v ∈ o, v.length < P64) :
    pOptWith pVec (encOptVec o ++ r) = some (o, r) := by
  cases o with
  | none => rfl
  | some v =>
    simp only [encOptVec, List.cons_append, pOptWith, pVec_enc v r (h v rfl)]

theorem pOptArr32_enc (o : Option Bytes) (r : Bytes) (h : ∀ v ∈ o, v.length = 32) :
    pOptWith (pTake 32) (encOptArr32 o ++ r) = some (o, r) := by
  cases o with
  | none => rfl
  | some v =>
    simp only [encOptArr32, List.cons_append, pOptWith, pTake_append v r 32 (h v rfl)]

theorem pMessageKeys_enc (mk2 : MessageKeys) (r : Bytes)
    (h1 : mk2.cipher_key.length = 32) (h2 : mk2.mac_key.length = 32)
    (h3 : mk2.iv.length = 16) :
    pMessageKeys (encMessageKeys mk2 ++ r) = some (mk2, r) := by
  simp only [encMessageKeys, List.append_assoc, pMessageKeys,
    pTake_append mk2.cipher_key (mk2.mac_key ++ (mk2.iv ++ r)) 32 h1,
    pTake_append mk2.mac_key (mk2.iv ++ r) 32 h2,
    pTake_append mk2.iv r 16 h3]

/-- Well-formedness of one skipped-key entry as it occurs in any state
built by the code: a `String` key, a `u32` number, and fixed-size key
material. -/
def EntryWF (e : SkKey × MessageKeys) : Prop :=
  e.1.1.length < P64 ∧ e.1.2 < U32MOD ∧ e.2.cipher_key.length = 32 ∧
    e.2.mac_key.length = 32 ∧ e.2.iv.length = 16

theorem pSkEntry_enc (e : SkKey × MessageKeys) (r : Bytes) (h : EntryWF e) :
    pSkEntry (encSkEntry e ++ r) = some (e, r) := by
  obtain ⟨h1, h2, h3, h4, h5⟩ := h
  simp only [encSkEntry, List.append_assoc, pSkEntry,
    pVec_enc e.1.1 (encU32 e.1.2 ++ (encMessageKeys e.2 ++ r)) h1,
    pU32_enc e.1.2 (encMessageKeys e.2 ++ r) h2,
    pMessageKeys_enc e.2 r h3 h4 h5]

theorem pEntries_enc (m : SkMap) (r : Bytes) (h : ∀ e ∈ m, EntryWF e) :
    pEntries m.length ((m.map encSkEntry).flatten ++ r) = some (m, r) := by
  induction m with
  | nil => rfl
  | cons e rest ih =>
    simp only [List.map_cons, List.flatten_cons, List.length_cons, List.append_assoc,
      pEntries, pSkEntry_enc e ((rest.map encSkEntry).flatten ++ r) (h e (by simp)),
      ih (fun e2 he2 => h e2 (by simp [he2]))]

theorem pSkMap_enc (m : SkMap) (r : Bytes) (hlen : m.length < P64)
    (h : ∀ e ∈ m, EntryWF e) :
    pSkMap (encSkMap m ++ r) = some (m, r) := by
  simp only [encSkMap, List.append_assoc, pSkMap,
    pU64_enc m.length ((m.map encSkEntry).flatten ++ r) hlen, pEntries_enc m r h]

/-- Well-formedness of a session state, satisfied by every state the code
builds: fixed-size key material, `u32` counters, `usize` lengths. -/
structure SessionWF (s : RatchetSession) : Prop where
  hpub : s.dh_self.public.length < P64
  hpriv : s.dh_self.priv.length < P64
  hrem : ∀ v ∈ s.dh_remote, v.length < P64
  hroot : s.root_key.length = 32
  hcks : ∀ v ∈ s.chain_key_send, v.length = 32
  hckr : ∀ v ∈ s.chain_key_recv, v.length = 32
  hsc : s.send_count < U32MOD
  hrc : s.recv_count < U32MOD
  hpc : s.prev_send_count < U32MOD
  hsklen : s.skipped_keys.length < P64
  hsk : ∀ e ∈ s.skipped_keys, EntryWF e

/-! ## Claim C9: session serialization round-trip -/

/-- C9: for every well-formed session state (as every reachable state is:
32-byte root and chain keys, `u32` counters, `usize` lengths),
`deserialize(serialize(s))` succeeds and returns a state equal to `s` in
every field of the data model. -/
theorem c9_session_roundtrip (s : RatchetSession) (h : SessionWF s) :
    deserializeSession (serializeSession s) = .ok s := by
  obtain ⟨h1, h2, h3, h4, h5, h6, h7, h8, h9, h10, h11⟩ := h
  have e1 := pVec_enc s.dh_self.public
    (encVec s.dh_self.priv ++ (encOptVec s.dh_remote ++ (s.root_key ++
      (encOptArr32 s.chain_key_send ++ (encOptArr32 s.chain_key_recv ++
      (encU32 s.send_count ++ (encU32 s.recv_count ++ (encU32 s.prev_send_count ++
      encSkMap s.skipped_keys)))))))) h1
  have e2 := pVec_enc s.dh_self.priv
    (encOptVec s.dh_remote ++ (s.root_key ++
      (encOptArr32 s.chain_key_send ++ (encOptArr32 s.chain_key_recv ++
      (encU32 s.send_count ++ (encU32 s.recv_count ++ (encU32 s.prev_send_count ++
      encSkMap s.skipped_keys))))))) h2
  have e3 := pOptVec_enc s.dh_remote
    (s.root_key ++ (encOptArr32 s.chain_key_send ++ (encOptArr32 s.chain_key_recv ++
      (encU32 s.send_count ++ (encU32 s.recv_count ++ (encU32 s.prev_send_count ++
      encSkMap s.skipped_keys)))))) h3
  have e4 := pTake_append s.root_key
    (encOptArr32 s.chain_key_send ++ (encOptArr32 s.chain_key_recv ++
      (encU32 s.send_count ++ (encU32 s.recv_count ++ (encU32 s.prev_send_count ++
      encSkMap s.skipped_keys))))) 32 h4
  have e5 := pOptArr32_enc s.chain_key_send
    (encOptArr32 s.chain_key_recv ++ (encU32 s.send_count ++ (encU32 s.recv_count ++
      (encU32 s.prev_send_count ++ encSkMap s.skipped_keys)))) h5
  have e6 := pOptArr32_enc s.chain_key_recv
    (encU32 s.send_count ++ (encU32 s.recv_count ++ (encU32 s.prev_send_count ++
      encSkMap s.skipped_keys))) h6
  have e7 := pU32_enc s.send_count
    (encU32 s.recv_count ++ (encU32 s.prev_send_count ++ encSkMap s.skipped_keys)) h7
  have e8 := pU32_enc s.recv_count
    (encU32 s.prev_send_count ++ encSkMap s.skipped_keys) h8
  have e9 := pU32_enc s.prev_send_count (encSkMap s.skipped_keys) h9
  have e10 := pSkMap_enc s.skipped_keys [] h10 h11
  rw [List.append_nil] at e10
  simp only [serializeSession, List.append_assoc, deserializeSession,
    e1, e2, e3, e4, e5, e6, e7, e8, e9, e10]

/-- Concrete well-formed session for the C9 witness. -/
def sampleSessionWF : SessionWF sampleSession where
  hpub := by decide
  hpriv := by decide
  hrem := by
    intro v hv
    rw [Option.mem_def] at hv
    rw [(Option.some_inj.mp hv.symm : v = to32 [3])]
    decide
  hroot := by decide
  hcks := by
    intro v hv
    rw [Option.mem_def] at hv
    rw [(Option.some_inj.mp hv.symm : v = to32 [5])]
    decide
  hckr := by
    intro v hv
    rw [Option.mem_def] at hv
    rw [(Option.some_inj.mp hv.symm : v = to32 [6])]
    decide
  hsc := by decide
  hrc := by decide
  hpc := by decide
  hsklen := by decide
  hsk := by intro e he; cases he

/-- Closed witness for C9 at a concrete session. -/
theorem c9_session_roundtrip_witness :
    deserializeSession (serializeSession sampleSession) = .ok sampleSession :=
  c9_session_roundtrip sampleSession sampleSessionWF

/-! ## Claim C7: ratchet message wire format (corrected: bincode, not the
spec's canonical layout) -/

/-- The wire layout asserted by the claim (spec section 6), stated from the
spec's words for comparison with the implementation: raw 32-byte
`dh_public`, big-endian `u32` fields, a `u32` nonce length, the 12-byte
nonce, a `u32` ciphertext length, then the ciphertext. -/
def specCanonicalLayout (m : RatchetMessage) : Bytes :=
  m.dh_public ++ beBytes 4 m.prev_chain_count ++ beBytes 4 m.message_number ++
    beBytes 4 m.nonce.length ++ m.nonce ++ beBytes 4 m.ciphertext.length ++
    m.ciphertext

/-- Concrete wire message for the C7 counterexample. -/
def sampleWire : RatchetMessage :=
  { dh_public := to32 [1]
    prev_chain_count := 0
    message_number := 0
    ciphertext := [5]
    nonce := List.replicate 12 0 }

/-- C7 counterexample: at a concrete message (32-byte DH key, 12-byte
nonce, 1-byte ciphertext), `to_bytes` does not produce the claimed
canonical layout: the code delegates to bincode, which length-prefixes
every `Vec` with a little-endian `u64`, writes the `u32` fields
little-endian, and serialises `ciphertext` before `nonce` (struct field
order), giving a 77-byte encoding where the claimed layout has 61. -/
theorem c7_layout_counterexample :
    messageToBytes sampleWire ≠ specCanonicalLayout sampleWire := by
  decide

/-- C7 amended: `to_bytes` is the bincode fixint little-endian encoding
`len(dh_public) u64le || dh_public || prev_chain_count u32le ||
message_number u32le || len(ciphertext) u64le || ciphertext ||
len(nonce) u64le || nonce`, and `from_bytes` parses exactly this encoding
back into an equal message. -/
theorem c7_message_bincode_roundtrip (m : RatchetMessage)
    (h1 : m.dh_public.length < P64) (h2 : m.prev_chain_count < U32MOD)
    (h3 : m.message_number < U32MOD) (h4 : m.ciphertext.length < P64)
    (h5 : m.nonce.length < P64) :
    messageToBytes m =
      encU64 m.dh_public.length ++ m.dh_public ++ encU32 m.prev_chain_count ++
        encU32 m.message_number ++ encU64 m.ciphertext.length ++ m.ciphertext ++
        encU64 m.nonce.length ++ m.nonce ∧
    messageFromBytes (messageToBytes m) = .ok m := by
  constructor
  · simp [messageToBytes, encVec, List.append_assoc]
  · have e1 := pVec_enc m.dh_public
      (encU32 m.prev_chain_count ++ (encU32 m.message_number ++
        (encVec m.ciphertext ++ encVec m.nonce))) h1
    have e2 := pU32_enc m.prev_chain_count
      (encU32 m.message_number ++ (encVec m.ciphertext ++ encVec m.nonce)) h2
    have e3 := pU32_enc m.message_number (encVec m.ciphertext ++ encVec m.nonce) h3
    have e4 := pVec_enc m.ciphertext (encVec m.nonce) h4
    have e5 := pVec_enc m.nonce [] h5
    rw [List.append_nil] at e5
    simp only [messageToBytes, List.append_assoc, messageFromBytes,
      e1, e2, e3, e4, e5]

/-- Closed witness for the amended C7 at the concrete message. -/
theorem c7_message_bincode_roundtrip_witness :
    sampleWire.dh_public.length < P64 ∧ sampleWire.prev_chain_count < U32MOD ∧
    sampleWire.message_number < U32MOD ∧ sampleWire.ciphertext.length < P64 ∧
    sampleWire.nonce.length < P64 ∧
    (messageToBytes sampleWire =
      encU64 sampleWire.dh_public.length ++ sampleWire.dh_public ++
        encU32 sampleWire.prev_chain_count ++ encU32 sampleWire.message_number ++
        encU64 sampleWire.ciphertext.length ++ sampleWire.ciphertext ++
        encU64 sampleWire.nonce.length ++ sampleWire.nonce ∧
      messageFromBytes (messageToBytes sampleWire) = .ok sampleWire) :=
  ⟨by decide, by decide, by decide, by decide, by decide,
    c7_message_bincode_roundtrip sampleWire (by decide) (by decide) (by decide)
      (by decide) (by decide)⟩

/-! ## x3dh.rs -/

/-- `INFO = b"SafeTalk_X3DH"` (x3dh.rs line 15). -/
def INFO_X3DH : Bytes := [83, 97, 102, 101, 84, 97, 108, 107, 95, 88, 51, 68, 72]

/-- `X3DHSenderOutput` (x3dh.rs lines 20-27). -/
structure X3DHSenderOutput where
  shared_secret : Bytes
  ephemeral_public_key : Bytes
  used_one_time_prekey_id : Option Nat
deriving DecidableEq, Repr

/-- `X3DH::verify_signed_prekey` (x3dh.rs lines 234-255). -/
def verifySignedPrekey (P : Prims) (identityPublic prekeyPublic signature : Bytes) :
    Except String Bool :=
  if identityPublic.length ≠ 32 ∨ signature.length ≠ 64 then
    .error "Invalid key or signature length"
  else
    match P.edParse identityPublic with
    | none => .error "Invalid identity key"
    | some vk => .ok (P.edVerifyKey vk prekeyPublic signature)

/-- `X3DH::kdf` (x3dh.rs lines 258-264): HKDF-SHA256 with no salt, expanded
to 32 bytes (the `expand` error path is dead). -/
def kdfX3DH (P : Prims) (input : Bytes) : Bytes :=
  P.hkdfExpand none input INFO_X3DH 32

/-- `X3DH::ed25519_to_x25519_private` (x3dh.rs lines 267-288): length check
then the SHA-512-and-clamp conversion (abstracted in `Prims`). -/
def ed25519ToX25519Private (P : Prims) (edPrivate : Bytes) : Except String Bytes :=
  if edPrivate.length = 32 then .ok (P.edToXPriv edPrivate)
  else .error "Invalid Ed25519 private key length"

/-- `X3DH::ed25519_to_x25519_public` (x3dh.rs lines 291-308): length check,
Edwards decompression (may fail), Montgomery conversion. -/
def ed25519ToX25519Public (P : Prims) (edPublic : Bytes) : Except String Bytes :=
  if edPublic.length = 32 then
    match P.edToXPub edPublic with
    | none => .error "Invalid Ed25519 public key"
    | some x => .ok x
  else .error "Invalid Ed25519 public key length"

/-- `X3DH::bytes_to_x25519_public` (x3dh.rs lines 310-317). -/
def bytesToX25519Public (b : Bytes) : Except String Bytes :=
  if b.length = 32 then .ok b else .error "Public key must be 32 bytes"

/-- `X3DH::vec_to_32` (x3dh.rs lines 319-326). -/
def vecTo32 (v : Bytes) : Except String Bytes :=
  if v.length = 32 then .ok v else .error "Expected 32 bytes"

/-- `X3DH::initiator_calculate` (x3dh.rs lines 112-174); the random
ephemeral secret scalar is passed explicitly. -/
def initiatorCalculate (P : Prims)
    (senderIdentityPrivate recipientIdentityPublic : Bytes)
    (recipientSignedPrekeyPublic recipientSignedPrekeySignature : Bytes)
    (recipientOneTimePrekeyPublic : Option Bytes)
    (recipientOneTimePrekeyId : Option Nat)
    (ephemeralScalar : Bytes) : Except String X3DHSenderOutput :=
  match verifySignedPrekey P recipientIdentityPublic recipientSignedPrekeyPublic
      recipientSignedPrekeySignature with
  | .error e => .error e
  | .ok false => .error "Invalid signed prekey signature"
  | .ok true =>
    match ed25519ToX25519Private P senderIdentityPrivate with
    | .error e => .error e
    | .ok senderX =>
      match ed25519ToX25519Public P recipientIdentityPublic with
      | .error e => .error e
      | .ok recipientIdentityX =>
        match bytesToX25519Public recipientSignedPrekeyPublic with
        | .error e => .error e
        | .ok recipientSpk =>
          let dh1 := P.dhFun senderX recipientSpk
          match vecTo32 ephemeralScalar with
          | .error e => .error e
          | .ok ephSecret =>
            let dh2 := P.dhFun ephSecret recipientIdentityX
            let dh3 := P.dhFun ephSecret recipientSpk
            match recipientOneTimePrekeyPublic with
            | some otpkPublic =>
              match bytesToX25519Public otpkPublic with
              | .error e => .error e
              | .ok otpk =>
                let dh4 := P.dhFun ephSecret otpk
                .ok { shared_secret := kdfX3DH P (dh1 ++ dh2 ++ dh3 ++ dh4)
                      ephemeral_public_key := P.dhPub ephemeralScalar
                      used_one_time_prekey_id := recipientOneTimePrekeyId }
            | none =>
              .ok { shared_secret := kdfX3DH P (dh1 ++ dh2 ++ dh3)
                    ephemeral_public_key := P.dhPub ephemeralScalar
                    used_one_time_prekey_id := none }

/-- `X3DH::responder_calculate` (x3dh.rs lines 178-217). -/
def responderCalculate (P : Prims)
    (recipientIdentityPrivate recipientSignedPrekeyPrivate : Bytes)
    (recipientOneTimePrekeyPrivate : Option Bytes)
    (senderIdentityPublic senderEphemeralPublic : Bytes) : Except String Bytes :=
  match ed25519ToX25519Private P recipientIdentityPrivate with
  | .error e => .error e
  | .ok recipientX =>
    match vecTo32 recipientSignedPrekeyPrivate with
    | .error e => .error e
    | .ok recipientSpk =>
      match ed25519ToX25519Public P senderIdentityPublic with
      | .error e => .error e
      | .ok senderIdentityX =>
        match bytesToX25519Public senderEphemeralPublic with
        | .error e => .error e
        | .ok senderEphemeral =>
          let dh1 := P.dhFun recipientSpk senderIdentityX
          let dh2 := P.dhFun recipientX senderEphemeral
          let dh3 := P.dhFun recipientSpk senderEphemeral
          match recipientOneTimePrekeyPrivate with
          | some otpkPrivate =>
            match vecTo32 otpkPrivate with
            | .error e => .error e
            | .ok otpk =>
              let dh4 := P.dhFun otpk senderEphemeral
              .ok (kdfX3DH P (dh1 ++ dh2 ++ dh3 ++ dh4))
          | none => .ok (kdfX3DH P (dh1 ++ dh2 ++ dh3))

/-! ## Claim C1: X3DH agreement -/

/-- C1: for every pair of Ed25519 identity seeds, every X25519 signed
prekey keypair whose signature passes verification against the responder
identity key, and every optional one-time-prekey keypair (present on both
sides or absent on both sides), `initiator_calculate` run on the public
halves succeeds, and `responder_calculate` run on the private halves with
the initiator's identity public key and the ephemeral public key from the
initiator's output returns a byte-identical 32-byte shared secret. -/
theorem c1_x3dh_agreement (P : Prims) (aliceSeed bobSeed spkPriv ephPriv : Bytes)
    (otpkPriv : Option Bytes) (otpkId : Option Nat) (signature : Bytes)
    (hA : aliceSeed.length = 32) (hB : bobSeed.length = 32)
    (hS : spkPriv.length = 32) (hE : ephPriv.length = 32)
    (hO : ∀ v ∈ otpkPriv, v.length = 32)
    (hSig : verifySignedPrekey P (P.edPub bobSeed) (P.dhPub spkPriv) signature =
      .ok true) :
    ∃ out, initiatorCalculate P aliceSeed (P.edPub bobSeed) (P.dhPub spkPriv)
        signature (otpkPriv.map P.dhPub) otpkId ephPriv = .ok out ∧
      responderCalculate P bobSeed spkPriv otpkPriv (P.edPub aliceSeed)
        out.ephemeral_public_key = .ok out.shared_secret ∧
      out.shared_secret.length = 32 := by
  have c1 : P.dhFun (P.edToXPriv aliceSeed) (P.dhPub spkPriv) =
      P.dhFun spkPriv (P.dhPub (P.edToXPriv aliceSeed)) :=
    P.dh_comm _ _ (P.edToXPriv_len aliceSeed) hS
  have c2 : P.dhFun ephPriv (P.dhPub (P.edToXPriv bobSeed)) =
      P.dhFun (P.edToXPriv bobSeed) (P.dhPub ephPriv) :=
    P.dh_comm _ _ hE (P.edToXPriv_len bobSeed)
  have c3 : P.dhFun ephPriv (P.dhPub spkPriv) =
      P.dhFun spkPriv (P.dhPub ephPriv) :=
    P.dh_comm _ _ hE hS
  cases otpkPriv with
  | none =>
    refine ⟨X3DHSenderOutput.mk
      (kdfX3DH P (P.dhFun (P.edToXPriv aliceSeed) (P.dhPub spkPriv) ++
        P.dhFun ephPriv (P.dhPub (P.edToXPriv bobSeed)) ++
        P.dhFun ephPriv (P.dhPub spkPriv)))
      (P.dhPub ephPriv) none, ?_, ?_, P.hkdf_len none _ INFO_X3DH 32⟩
    · simp only [initiatorCalculate, hSig, ed25519ToX25519Private, hA,
        ed25519ToX25519Public, P.edPub_len, P.edx_agree bobSeed hB,
        bytesToX25519Public, P.dhPub_len, vecTo32, hE, Option.map_none',
        if_true, if_pos rfl]
    · simp only [responderCalculate, ed25519ToX25519Private, hB,
        ed25519ToX25519Public, P.edPub_len, P.edx_agree aliceSeed hA,
        bytesToX25519Public, P.dhPub_len, vecTo32, hS, if_true, if_pos rfl,
        c1, c2, c3]
  | some otpk =>
    have hO2 : otpk.length = 32 := hO otpk rfl
    have c4 : P.dhFun ephPriv (P.dhPub otpk) =
        P.dhFun otpk (P.dhPub ephPriv) :=
      P.dh_comm _ _ hE hO2
    refine ⟨X3DHSenderOutput.mk
      (kdfX3DH P (P.dhFun (P.edToXPriv aliceSeed) (P.dhPub spkPriv) ++
        P.dhFun ephPriv (P.dhPub (P.edToXPriv bobSeed)) ++
        P.dhFun ephPriv (P.dhPub spkPriv) ++
        P.dhFun ephPriv (P.dhPub otpk)))
      (P.dhPub ephPriv) otpkId, ?_, ?_, P.hkdf_len none _ INFO_X3DH 32⟩
    · simp only [initiatorCalculate, hSig, ed25519ToX25519Private, hA,
        ed25519ToX25519Public, P.edPub_len, P.edx_agree bobSeed hB,
        bytesToX25519Public, P.dhPub_len, vecTo32, hE, Option.map_some',
        if_true, if_pos rfl]
    · simp only [responderCalculate, ed25519ToX25519Private, hB,
        ed25519ToX25519Public, P.edPub_len, P.edx_agree aliceSeed hA,
        bytesToX25519Public, P.dhPub_len, vecTo32, hS, hO2, if_true,
        if_pos rfl, c1, c2, c3, c4]

/-- Closed witness for C1 at concrete seeds (with a one-time prekey). -/
theorem c1_x3dh_agreement_witness :
    (List.replicate 32 17 : Bytes).length = 32 ∧
    (List.replicate 32 34 : Bytes).length = 32 ∧
    (List.replicate 32 51 : Bytes).length = 32 ∧
    (List.replicate 32 68 : Bytes).length = 32 ∧
    (∀ v ∈ some (List.replicate 32 85 : Bytes), v.length = 32) ∧
    verifySignedPrekey trivP (trivP.edPub (List.replicate 32 34))
      (trivP.dhPub (List.replicate 32 51)) (List.replicate 64 9) = .ok true ∧
    ∃ out, initiatorCalculate trivP (List.replicate 32 17)
        (trivP.edPub (List.replicate 32 34)) (trivP.dhPub (List.replicate 32 51))
        (List.replicate 64 9) ((some (List.replicate 32 85)).map trivP.dhPub)
        (some 1) (List.replicate 32 68) = .ok out ∧
      responderCalculate trivP (List.replicate 32 34) (List.replicate 32 51)
        (some (List.replicate 32 85)) (trivP.edPub (List.replicate 32 17))
        out.ephemeral_public_key = .ok out.shared_secret ∧
      out.shared_secret.length = 32 :=
  ⟨by decide, by decide, by decide, by decide,
    fun v hv => by simp only [Option.mem_def, Option.some_inj] at hv; subst hv; decide,
    rfl,
    c1_x3dh_agreement trivP (List.replicate 32 17) (List.replicate 32 34)
      (List.replicate 32 51) (List.replicate 32 68) (some (List.replicate 32 85))
      (some 1) (List.replicate 64 9) (by decide) (by decide) (by decide) (by decide)
      (fun v hv => by
        simp only [Option.mem_def, Option.some_inj] at hv; subst hv; decide)
      rfl⟩

/-! ## Claim C2: ordered delivery between two linked sessions

A conversation is a list of steps; each step names a direction, a
plaintext, the 12-byte random nonce drawn by the sender's `encrypt`, and
the 32-byte random scalar drawn if the receiver's `decrypt` performs a DH
ratchet.  Each message is delivered to the peer immediately (in-order
delivery in both directions, arbitrary alternation and streaks). -/

/-- One send step of a conversation. -/
structure Step where
  aliceToBob : Bool
  plaintext : Bytes
  nonce : Bytes
  fresh : Bytes
deriving Repr

/-- Encrypt at the sender and, if a message was produced, decrypt it at
the receiver; returns the two updated sessions and the pair of sent
plaintext and decryption result. -/
def doStep (P : Prims) (st : Step) (sender receiver : RatchetSession) :
    RatchetSession × RatchetSession × Option (Bytes × Except String Bytes) :=
  match RatchetSession.encrypt P sender st.nonce st.plaintext with
  | (s2, .error _) => (s2, receiver, none)
  | (s2, .ok m) =>
    let r := RatchetSession.decrypt P receiver m st.fresh
    (s2, r.1, some (st.plaintext, r.2))

/-- Run a conversation from the two sessions, collecting for every
delivered message the sent plaintext and the receiver's decryption
result. -/
def runSched (P : Prims) : List Step → RatchetSession → RatchetSession →
    List (Bytes × Except String Bytes)
  | [], _, _ => []
  | st :: rest, a, b =>
    if st.aliceToBob then
      match doStep P st a b with
      | (a2, b2, o) => o.toList ++ runSched P rest a2 b2
    else
      match doStep P st b a with
      | (b2, a2, o) => o.toList ++ runSched P rest a2 b2

/-- Every nonce in the schedule is 12 bytes and every fresh scalar is 32
bytes (as the code's CSPRNG draws them). -/
def schedOk : List Step → Bool
  | [] => true
  | st :: r => decide (st.nonce.length = 12) && decide (st.fresh.length = 32) && schedOk r

/-- The fresh scalars' public keys avoid the given list and each other:
the collision-freeness of honest random key generation. -/
def freshOk (P : Prims) : List Step → List Bytes → Bool
  | [], _ => true
  | st :: r, fb => decide (P.dhPub st.fresh ∉ fb) && freshOk P r (P.dhPub st.fresh :: fb)

/-- `skip_message_keys` up to the current `recv_count` is a no-op. -/
theorem skipMessageKeys_self (P : Prims) (s : RatchetSession)
    (h : s.recv_count + MAX_SKIP < U32MOD) :
    skipMessageKeys P s s.recv_count = .ok s := by
  rcases hck : s.chain_key_recv with _ | ck
  · simp [skipMessageKeys, hck]
  · rw [skipMessageKeys_some P s s.recv_count ck hck,
      if_neg (by rw [Nat.mod_eq_of_lt h]; omega)]
    obtain ⟨ds, dr, rk, cks, ckr, sc, rc, pc, sk⟩ := s
    simp only at hck
    simp [hck, Nat.sub_self, skipLoop, Function.iterate_zero]

/-- Decrypting a message built by `encrypt` with the matching message keys
succeeds with the original plaintext. -/
theorem decryptWithKeys_enc (P : Prims) (keys : MessageKeys) (dhp : Bytes)
    (pcc num : Nat) (nonce pt : Bytes)
    (hk : keys.cipher_key.length = 32) (hn : nonce.length = 12) :
    decryptWithKeys P keys
      ⟨dhp, pcc, num, P.aeadEnc keys.cipher_key nonce pt [], nonce⟩ = .ok pt := by
  have hlen : ¬ (nonce ++ P.aeadEnc keys.cipher_key nonce pt []).length < 12 := by
    simp [List.length_append, hn]
  simp only [decryptWithKeys, hk, if_pos rfl, if_neg hlen, List.take_left' hn,
    List.drop_left' hn, hn, P.aead_roundtrip, if_true]

/-- In-order decrypt on the current chain: one chain step, no skipping. -/
theorem decrypt_inorder (P : Prims) (s : RatchetSession) (m : RatchetMessage)
    (fresh ck : Bytes)
    (hfind : skFind (b64 m.dh_public, m.message_number) s.skipped_keys = none)
    (hrem : s.dh_remote = some m.dh_public)
    (hck : s.chain_key_recv = some ck)
    (hnum : m.message_number = s.recv_count)
    (hrb : s.recv_count + MAX_SKIP < U32MOD) :
    RatchetSession.decrypt P s m fresh =
      ({ s with chain_key_recv := some (chainKeyStep P ck)
                recv_count := (s.recv_count + 1) % U32MOD },
        decryptWithKeys P (kdfCk P ck) m) := by
  rw [decrypt_no_ratchet P s m fresh hfind hrem, hnum]
  simp only [skipMessageKeys_self P s hrb, hck]

/-- Receive that triggers a DH ratchet: previous chain fully received
(`prev_chain_count = recv_count`), first message of the new chain. -/
theorem decrypt_ratchet (P : Prims) (s : RatchetSession) (m : RatchetMessage)
    (fresh : Bytes)
    (hfind : skFind (b64 m.dh_public, m.message_number) s.skipped_keys = none)
    (hrem : s.dh_remote ≠ some m.dh_public)
    (hprev : m.prev_chain_count = s.recv_count)
    (hnum : m.message_number = 0)
    (hrb : s.recv_count + MAX_SKIP < U32MOD)
    (hsp : s.dh_self.priv.length = 32)
    (hmp : m.dh_public.length = 32)
    (hfl : fresh.length = 32) :
    RatchetSession.decrypt P s m fresh =
      ({ dh_self := ⟨P.dhPub fresh, fresh⟩
         dh_remote := some m.dh_public
         root_key := (kdfRk P (kdfRk P s.root_key
           (P.dhFun s.dh_self.priv m.dh_public)).1 (P.dhFun fresh m.dh_public)).1
         chain_key_send := some (kdfRk P (kdfRk P s.root_key
           (P.dhFun s.dh_self.priv m.dh_public)).1 (P.dhFun fresh m.dh_public)).2
         chain_key_recv := some (chainKeyStep P
           (kdfRk P s.root_key (P.dhFun s.dh_self.priv m.dh_public)).2)
         send_count := 0
         recv_count := 1 % U32MOD
         prev_send_count := s.send_count
         skipped_keys := s.skipped_keys },
        decryptWithKeys P
          (kdfCk P (kdfRk P s.root_key (P.dhFun s.dh_self.priv m.dh_public)).2) m) := by
  have hneed : (match s.dh_remote with
      | none => true
      | some remote => decide ¬remote = m.dh_public) = true := by
    rcases hdr : s.dh_remote with _ | v
    · rfl
    · simp only [decide_eq_true_eq]
      intro h2
      exact hrem (hdr.trans (by rw [h2]))
  have hskip0 : ∀ s2 : RatchetSession, s2.recv_count = 0 →
      skipMessageKeys P s2 0 = .ok s2 := by
    intro s2 h0
    have := skipMessageKeys_self P s2 (by rw [h0]; norm_num [MAX_SKIP, U32MOD])
    rwa [h0] at this
  simp only [RatchetSession.decrypt, hfind]
  rw [hprev, hnum]
  simp only [hneed, if_pos rfl, skipMessageKeys_self P s hrb, dhRatchet,
    DhKeyPair.diffieHellman, DhKeyPair.fresh, hsp, hmp, hfl, P.dhPub_len,
    and_self, if_pos rfl, if_true]
  rw [hskip0 _ rfl]

/-- Synchronisation invariant between the current sender side `S` and
receiver side `R` of a conversation with in-order delivery.  `fb` is the
list of DH public keys already in play (fresh keys must avoid it), `k`
bounds the counters.  The receiver is half a DH ratchet ahead: its root
key and sending chain already absorb its own fresh key, which the sender
has not seen yet. -/
structure Sync (P : Prims) (fb : List Bytes) (k : Nat)
    (S R : RatchetSession) : Prop where
  hSpriv : S.dh_self.priv.length = 32
  hSpub : S.dh_self.public = P.dhPub S.dh_self.priv
  hRpriv : R.dh_self.priv.length = 32
  hRpub : R.dh_self.public = P.dhPub R.dh_self.priv
  hSfb : S.dh_self.public ∈ fb
  hRfb : R.dh_self.public ∈ fb
  hRrem : R.dh_remote = some S.dh_self.public
  hSrem : S.dh_remote ≠ some R.dh_self.public
  hCk : (S.chain_key_send = none ∧ R.chain_key_recv = none) ∨
    (∃ ck, S.chain_key_send = some ck ∧ R.chain_key_recv = some ck)
  hCnt : S.send_count = R.recv_count
  hRsend : R.send_count = 0
  hPrev : R.prev_send_count = S.recv_count
  hRroot : R.root_key =
    (kdfRk P S.root_key (P.dhFun R.dh_self.priv S.dh_self.public)).1
  hRcks : R.chain_key_send =
    some ((kdfRk P S.root_key (P.dhFun R.dh_self.priv S.dh_self.public)).2)
  hSsk : S.skipped_keys = []
  hRsk : R.skipped_keys = []
  hSsend : S.send_count ≤ k
  hSrecv : S.recv_count ≤ k

/-- A step in the sender's current direction keeps the two sessions in
sync, and the delivered message (if any) decrypts to the sent
plaintext. -/
theorem sync_streak (P : Prims) (fb : List Bytes) (k : Nat)
    (S R : RatchetSession) (st : Step) (hI : Sync P fb k S R)
    (hk : k + MAX_SKIP + 1 < U32MOD) (hn : st.nonce.length = 12) :
    Sync P (P.dhPub st.fresh :: fb) (k + 1) (doStep P st S R).1
      (doStep P st S R).2.1 ∧
    ∀ pr ∈ ((doStep P st S R).2.2).toList, pr.2 = .ok pr.1 := by
  obtain ⟨hSpriv, hSpub, hRpriv, hRpub, hSfb, hRfb, hRrem, hSrem, hCk, hCnt,
    hRsend, hPrev, hRroot, hRcks, hSsk, hRsk, hSsend, hSrecv⟩ := hI
  rcases hCk with ⟨hsnone, hrnone⟩ | ⟨ck, hsck, hrck⟩
  · have hd : doStep P st S R = (S, R, none) := by
      simp [doStep, RatchetSession.encrypt, hsnone]
    rw [hd]
    refine ⟨⟨hSpriv, hSpub, hRpriv, hRpub, List.mem_cons_of_mem _ hSfb,
      List.mem_cons_of_mem _ hRfb, hRrem, hSrem, Or.inl ⟨hsnone, hrnone⟩, hCnt,
      hRsend, hPrev, hRroot, hRcks, hSsk, hRsk, Nat.le_succ_of_le hSsend,
      Nat.le_succ_of_le hSrecv⟩, ?_⟩
    intro pr hpr
    simp at hpr
  · have hrb : R.recv_count + MAX_SKIP < U32MOD := by
      rw [← hCnt]
      omega
    have hdec := decrypt_inorder P R
      { dh_public := S.dh_self.public
        prev_chain_count := S.prev_send_count
        message_number := S.send_count
        ciphertext := P.aeadEnc (kdfCk P ck).cipher_key st.nonce st.plaintext []
        nonce := st.nonce } st.fresh ck (by rw [hRsk]; rfl) hRrem hrck hCnt hrb
    have hd : doStep P st S R =
        ({ S with chain_key_send := some (chainKeyStep P ck)
                  send_count := (S.send_count + 1) % U32MOD },
         { R with chain_key_recv := some (chainKeyStep P ck)
                  recv_count := (R.recv_count + 1) % U32MOD },
         some (st.plaintext, .ok st.plaintext)) := by
      simp only [doStep, encrypt_eq P S st.nonce st.plaintext ck hsck, hdec,
        decryptWithKeys_enc P (kdfCk P ck) S.dh_self.public S.prev_send_count
          S.send_count st.nonce st.plaintext (P.hmac_len ck [1]) hn]
    rw [hd]
    have hmod : (S.send_count + 1) % U32MOD = S.send_count + 1 :=
      Nat.mod_eq_of_lt (by omega)
    refine ⟨⟨hSpriv, hSpub, hRpriv, hRpub, List.mem_cons_of_mem _ hSfb,
      List.mem_cons_of_mem _ hRfb, hRrem, hSrem,
      Or.inr ⟨chainKeyStep P ck, rfl, rfl⟩, ?_, hRsend, hPrev, hRroot, hRcks,
      hSsk, hRsk, ?_, Nat.le_succ_of_le hSrecv⟩, ?_⟩
    · show (S.send_count + 1) % U32MOD = (R.recv_count + 1) % U32MOD
      rw [hCnt]
    · show (S.send_count + 1) % U32MOD ≤ k + 1
      rw [hmod]
      omega
    · intro pr hpr
      simp only [Option.toList_some, List.mem_singleton] at hpr
      rw [hpr]

/-- A step that reverses direction: the former receiver sends with its
fresh DH key, the former sender performs a DH ratchet on receipt,
decrypts correctly, and the invariant holds with the roles swapped. -/
theorem sync_flip (P : Prims) (fb : List Bytes) (k : Nat)
    (S R : RatchetSession) (st : Step) (hI : Sync P fb k S R)
    (hk : k + MAX_SKIP + 1 < U32MOD) (hn : st.nonce.length = 12)
    (hfl : st.fresh.length = 32) (hfp : P.dhPub st.fresh ∉ fb) :
    Sync P (P.dhPub st.fresh :: fb) (k + 1) (doStep P st R S).1
      (doStep P st R S).2.1 ∧
    ∀ pr ∈ ((doStep P st R S).2.2).toList, pr.2 = .ok pr.1 := by
  obtain ⟨hSpriv, hSpub, hRpriv, hRpub, hSfb, hRfb, hRrem, hSrem, hCk, hCnt,
    hRsend, hPrev, hRroot, hRcks, hSsk, hRsk, hSsend, hSrecv⟩ := hI
  have hcomm : P.dhFun S.dh_self.priv R.dh_self.public =
      P.dhFun R.dh_self.priv S.dh_self.public := by
    rw [hSpub, hRpub]
    exact P.dh_comm S.dh_self.priv R.dh_self.priv hSpriv hRpriv
  have hrb : S.recv_count + MAX_SKIP < U32MOD := by omega
  have hmp : (RatchetMessage.mk R.dh_self.public R.prev_send_count R.send_count
      (P.aeadEnc (kdfCk P ((kdfRk P S.root_key
        (P.dhFun R.dh_self.priv S.dh_self.public)).2)).cipher_key st.nonce
        st.plaintext [])
      st.nonce).dh_public.length = 32 := by
    show R.dh_self.public.length = 32
    rw [hRpub]
    exact P.dhPub_len R.dh_self.priv
  have hdecS := decrypt_ratchet P S
    (RatchetMessage.mk R.dh_self.public R.prev_send_count R.send_count
      (P.aeadEnc (kdfCk P ((kdfRk P S.root_key
        (P.dhFun R.dh_self.priv S.dh_self.public)).2)).cipher_key st.nonce
        st.plaintext [])
      st.nonce) st.fresh (by rw [hSsk]; rfl)
    (by exact hSrem) hPrev hRsend hrb hSpriv hmp hfl
  have hd : doStep P st R S =
      ({ R with chain_key_send := some (chainKeyStep P ((kdfRk P S.root_key
            (P.dhFun R.dh_self.priv S.dh_self.public)).2))
                send_count := (R.send_count + 1) % U32MOD },
       { dh_self := ⟨P.dhPub st.fresh, st.fresh⟩
         dh_remote := some R.dh_self.public
         root_key := (kdfRk P (kdfRk P S.root_key
           (P.dhFun R.dh_self.priv S.dh_self.public)).1
           (P.dhFun st.fresh R.dh_self.public)).1
         chain_key_send := some ((kdfRk P (kdfRk P S.root_key
           (P.dhFun R.dh_self.priv S.dh_self.public)).1
           (P.dhFun st.fresh R.dh_self.public)).2)
         chain_key_recv := some (chainKeyStep P ((kdfRk P S.root_key
           (P.dhFun R.dh_self.priv S.dh_self.public)).2))
         send_count := 0
         recv_count := 1 % U32MOD
         prev_send_count := S.send_count
         skipped_keys := S.skipped_keys },
       some (st.plaintext, .ok st.plaintext)) := by
    simp only [doStep, encrypt_eq P R st.nonce st.plaintext
      ((kdfRk P S.root_key (P.dhFun R.dh_self.priv S.dh_self.public)).2) hRcks,
      hdecS, hcomm,
      decryptWithKeys_enc P (kdfCk P ((kdfRk P S.root_key
        (P.dhFun R.dh_self.priv S.dh_self.public)).2)) R.dh_self.public
        R.prev_send_count R.send_count st.nonce st.plaintext
        (P.hmac_len _ [1]) hn]
  rw [hd]
  have hone : (1 : Nat) % U32MOD = 1 := Nat.mod_eq_of_lt (by norm_num [U32MOD])
  refine ⟨⟨hRpriv, hRpub, hfl, rfl, List.mem_cons_of_mem _ hRfb,
    List.mem_cons_self _ _, rfl, ?_, Or.inr ⟨_, rfl, rfl⟩, ?_, rfl, hCnt,
    ?_, ?_, hRsk, hSsk, ?_, ?_⟩, ?_⟩
  · show R.dh_remote ≠ some (P.dhPub st.fresh)
    rw [hRrem]
    intro h2
    exact hfp (Option.some_inj.mp h2 ▸ hSfb)
  · show (R.send_count + 1) % U32MOD = 1 % U32MOD
    rw [hRsend]
  · show (kdfRk P (kdfRk P S.root_key
      (P.dhFun R.dh_self.priv S.dh_self.public)).1
      (P.dhFun st.fresh R.dh_self.public)).1 =
      (kdfRk P R.root_key (P.dhFun st.fresh R.dh_self.public)).1
    rw [hRroot]
  · show some ((kdfRk P (kdfRk P S.root_key
      (P.dhFun R.dh_self.priv S.dh_self.public)).1
      (P.dhFun st.fresh R.dh_self.public)).2) =
      some ((kdfRk P R.root_key (P.dhFun st.fresh R.dh_self.public)).2)
    rw [hRroot]
  · show (R.send_count + 1) % U32MOD ≤ k + 1
    rw [hRsend, Nat.mod_eq_of_lt (by norm_num [U32MOD])]
    omega
  · show R.recv_count ≤ k + 1
    rw [← hCnt]
    omega
  · intro pr hpr
    simp only [Option.toList_some, List.mem_singleton] at hpr
    rw [hpr]

/-- Soundness of a whole conversation: from any pair of synchronised
sessions, every delivered message decrypts to its plaintext. -/
theorem runSched_sound (P : Prims) (sched : List Step) :
    ∀ (fb : List Bytes) (k : Nat) (A B : RatchetSession),
    (Sync P fb k A B ∨ Sync P fb k B A) →
    schedOk sched = true → freshOk P sched fb = true →
    k + sched.length + MAX_SKIP + 1 < U32MOD →
    ∀ pr ∈ runSched P sched A B, pr.2 = .ok pr.1 := by
  induction sched with
  | nil =>
    intro fb k A B _ _ _ _ pr hpr
    simp [runSched] at hpr
  | cons st rest ih =>
    intro fb k A B hsync hsch hfr hbound pr hpr
    have hsch2 := hsch
    simp only [schedOk, Bool.and_eq_true, decide_eq_true_eq] at hsch2
    obtain ⟨⟨hn, hfl⟩, hrest⟩ := hsch2
    have hfr2 := hfr
    simp only [freshOk, Bool.and_eq_true, decide_eq_true_eq] at hfr2
    obtain ⟨hfp, hfrest⟩ := hfr2
    have hk : k + MAX_SKIP + 1 < U32MOD := by
      simp only [List.length_cons] at hbound
      omega
    have hbound2 : (k + 1) + rest.length + MAX_SKIP + 1 < U32MOD := by
      simp only [List.length_cons] at hbound
      omega
    rw [runSched] at hpr
    cases hab : st.aliceToBob with
    | true =>
      rw [hab] at hpr
      simp only [if_true] at hpr
      have hstep : Sync P (P.dhPub st.fresh :: fb) (k + 1) (doStep P st A B).1
          (doStep P st A B).2.1 ∧
          ∀ pr2 ∈ ((doStep P st A B).2.2).toList, pr2.2 = .ok pr2.1 := by
        rcases hsync with hAB | hBA
        · exact sync_streak P fb k A B st hAB hk hn
        · exact sync_flip P fb k B A st hBA hk hn hfl hfp
      rcases List.mem_append.mp hpr with h2 | h2
      · exact hstep.2 pr h2
      · exact ih (P.dhPub st.fresh :: fb) (k + 1) _ _ (Or.inl hstep.1) hrest
          hfrest hbound2 pr h2
    | false =>
      rw [hab] at hpr
      simp only [Bool.false_eq_true, if_false] at hpr
      have hstep : Sync P (P.dhPub st.fresh :: fb) (k + 1) (doStep P st B A).1
          (doStep P st B A).2.1 ∧
          ∀ pr2 ∈ ((doStep P st B A).2.2).toList, pr2.2 = .ok pr2.1 := by
        rcases hsync with hAB | hBA
        · exact sync_flip P fb k A B st hAB hk hn hfl hfp
        · exact sync_streak P fb k B A st hBA hk hn
      rcases List.mem_append.mp hpr with h2 | h2
      · exact hstep.2 pr h2
      · exact ih (P.dhPub st.fresh :: fb) (k + 1) _ _ (Or.inr hstep.1) hrest
          hfrest hbound2 pr h2

/-- C2: sessions linked by `init_as_alice(shared_secret, pk)` and
`init_as_bob(shared_secret, sk, pk)` deliver correctly: for every
conversation of at most 10^4 steps in any alternation or streak pattern,
with in-order delivery, honest randomness (12-byte nonces, 32-byte
scalars whose public keys collide with nothing in play), every message
produced by one side's `encrypt` is decrypted by the other side to
exactly the sent plaintext. -/
theorem c2_ratchet_ordered_delivery (P : Prims)
    (sharedSecret spkPriv aliceScalar : Bytes) (sched : List Step)
    (A B : RatchetSession)
    (hss : sharedSecret.length = 32) (ha : aliceScalar.length = 32)
    (hspk : spkPriv.length = 32)
    (hA : initAsAlice P sharedSecret (P.dhPub spkPriv) aliceScalar = .ok A)
    (hB : initAsBob sharedSecret spkPriv (P.dhPub spkPriv) = .ok B)
    (hsch : schedOk sched = true)
    (hfr : freshOk P sched [P.dhPub aliceScalar, P.dhPub spkPriv] = true)
    (hlen : sched.length ≤ 10000) :
    ∀ pr ∈ runSched P sched A B, pr.2 = .ok pr.1 := by
  simp only [initAsAlice, hss, if_pos rfl, DhKeyPair.fresh,
    DhKeyPair.diffieHellman, ha, P.dhPub_len, and_self, if_true,
    Except.ok.injEq] at hA
  simp only [initAsBob, hss, if_pos rfl, if_true, Except.ok.injEq] at hB
  subst hA
  subst hB
  refine runSched_sound P sched [P.dhPub aliceScalar, P.dhPub spkPriv] 0 _ _
    (Or.inr ?_) hsch hfr ?_
  · exact ⟨hspk, rfl, ha, rfl, by simp, by simp, rfl, by simp,
      Or.inl ⟨rfl, rfl⟩, rfl, rfl, rfl, rfl, rfl, rfl, rfl,
      Nat.le_refl 0, Nat.le_refl 0⟩
  · have h1 : U32MOD = 4294967296 := rfl
    have h2 : MAX_SKIP = 1000 := rfl
    omega

/-- Concrete shared secret for the C2 witness. -/
def c2ss : Bytes := List.replicate 32 1

/-- Concrete signed-prekey scalar for the C2 witness. -/
def c2spk : Bytes := List.replicate 32 2

/-- Concrete initial Alice scalar for the C2 witness. -/
def c2a : Bytes := List.replicate 32 3

/-- Concrete three-step conversation (Alice, Bob, Alice) for the C2
witness. -/
def c2sched : List Step :=
  [⟨true, [10], List.replicate 12 0, List.replicate 32 4⟩,
   ⟨false, [11], List.replicate 12 0, List.replicate 32 5⟩,
   ⟨true, [12], List.replicate 12 0, List.replicate 32 6⟩]

/-- The session `init_as_alice` builds from the witness inputs. -/
def c2A : RatchetSession :=
  ⟨⟨trivP.dhPub c2a, c2a⟩, some (trivP.dhPub c2spk),
    (kdfRk trivP c2ss (trivP.dhFun c2a (trivP.dhPub c2spk))).1,
    some ((kdfRk trivP c2ss (trivP.dhFun c2a (trivP.dhPub c2spk))).2),
    none, 0, 0, 0, []⟩

/-- The session `init_as_bob` builds from the witness inputs. -/
def c2B : RatchetSession :=
  ⟨⟨trivP.dhPub c2spk, c2spk⟩, none, c2ss, none, none, 0, 0, 0, []⟩

/-- Closed witness for C2 at a concrete three-step conversation. -/
theorem c2_ratchet_ordered_delivery_witness :
    c2ss.length = 32 ∧ c2a.length = 32 ∧ c2spk.length = 32 ∧
    initAsAlice trivP c2ss (trivP.dhPub c2spk) c2a = .ok c2A ∧
    initAsBob c2ss c2spk (trivP.dhPub c2spk) = .ok c2B ∧
    schedOk c2sched = true ∧
    freshOk trivP c2sched [trivP.dhPub c2a, trivP.dhPub c2spk] = true ∧
    c2sched.length ≤ 10000 ∧
    ∀ pr ∈ runSched trivP c2sched c2A c2B, pr.2 = .ok pr.1 :=
  ⟨by decide, by decide, by decide, rfl, rfl, by decide, by decide, by decide,
    c2_ratchet_ordered_delivery trivP c2ss c2spk c2a c2sched c2A c2B
      (by decide) (by decide) (by decide) rfl rfl (by decide) (by decide)
      (by decide)⟩
